import Mathlib

/-!
# Kalas Random Chess — verification of the rules engine and AI

Shallow embedding of the game logic (`KalasRandomChess` in
`public/game-logic.js`) and the search engine (`ChessAI` in `public/ai.js`).

Modelling conventions:
* The JS board is `Array(64)` of piece letters (`'K','Q','R','B','N','P'`
  for white, lowercase for black) or `null`; we embed it as
  `List (Option Char)` of length 64, read with `List.getD i none`
  (JS out-of-range reads give `undefined`, which behaves as an empty cell)
  and written with `List.set` (JS out-of-range writes do not affect
  cells 0..63).
* `Math.random()` draws are modelled by explicit parameters: an index draw
  `Math.floor(Math.random() * n)` becomes `r % n` for an arbitrary `r : ℕ`
  (this ranges over exactly the values the JS draw can produce), and a
  branch draw `Math.random() < p` becomes an arbitrary `Bool`.
* `Date.now()` is passed in as an explicit `now : ℕ` argument.
* JS in-place mutation becomes explicit state passing: functions take the
  `Game` and return the updated `Game` together with the JS return value.
-/

namespace KRC

/-- The two player colors (`'white'` / `'black'` strings in the JS). -/
inductive Color
  | white
  | black
deriving DecidableEq, Repr

/-- JS `color === 'white' ? 'black' : 'white'` — the opponent color. -/
def Color.other : Color → Color
  | .white => .black
  | .black => .white

/-- The board: 64 cells, each `null` or a piece letter (index 0 = a1 … 63 = h8). -/
def Board := List (Option Char)
deriving DecidableEq, Repr

/-- A generated move candidate `{ to, isCapture, isEnPassant?, isDoublePush? }`
(the optional JS flags default to absent = `false`; the JS field `to` is a
reserved word in Lean, so it is embedded as `toIdx`). -/
structure MoveCandidate where
  toIdx : Nat
  isCapture : Bool
  isEnPassant : Bool := false
  isDoublePush : Bool := false
deriving DecidableEq, Repr

/-- A move record as appended to `moveHistory`.  The JS field `from` is a
reserved word in Lean, so it is embedded as `fromIdx`.  The optional JS
fields `isEnPassant` and `promotion` are absent unless set; we embed them
with defaults `false` / `none`; `to` becomes `toIdx`. -/
structure MoveRecord where
  fromIdx : Nat
  toIdx : Nat
  piece : Char
  captured : Option Char
  moveNumber : Nat
  isEnPassant : Bool := false
  promotion : Option Char := none
deriving DecidableEq, Repr

/-- The `KalasRandomChess` aggregate state.  `lastTimestamp : Option ℕ`
models the JS `null`-or-milliseconds field; clock values are integers
(they are clamped at 0 by `updateTime` but embedded as `ℤ` to mirror the
JS subtraction). -/
structure Game where
  board : Board
  currentTurn : Color
  moveNumber : Nat
  turnCount : Nat
  gameOver : Bool
  winner : Option Color
  lastMove : Option (Nat × Nat)
  moveHistory : List MoveRecord
  enPassantTarget : Option Nat
  timeControl : Nat
  whiteTime : Int
  blackTime : Int
  lastTimestamp : Option Nat
  timerRunning : Bool
deriving DecidableEq, Repr

/-- JS `new KalasRandomChess(timeControl)` — fresh game with an empty board. -/
def Game.new (timeControl : Nat) : Game where
  board := List.replicate 64 none
  currentTurn := .white
  moveNumber := 1
  turnCount := 1
  gameOver := false
  winner := none
  lastMove := none
  moveHistory := []
  enPassantTarget := none
  timeControl := timeControl
  whiteTime := (timeControl : Int) * 60 * 1000
  blackTime := (timeControl : Int) * 60 * 1000
  lastTimestamp := none
  timerRunning := false

/-- JS `getRow(index)`: `Math.floor(index / 8)`. -/
def getRow (index : Nat) : Nat := index / 8

/-- JS `getCol(index)`: `index % 8`. -/
def getCol (index : Nat) : Nat := index % 8

/-- JS `isWhitePiece(piece)`: `'KQRBNP'.includes(piece)` (membership taken on
the string's character list, which the kernel can evaluate). -/
def isWhitePiece (piece : Char) : Bool := "KQRBNP".data.contains piece

/-- JS `isBlackPiece(piece)`: `'kqrbnp'.includes(piece)`. -/
def isBlackPiece (piece : Char) : Bool := "kqrbnp".data.contains piece

/-- JS `getPieceColor(piece)`: white, black, or `null`. -/
def getPieceColor (piece : Char) : Option Color :=
  if isWhitePiece piece then some .white
  else if isBlackPiece piece then some .black
  else none

/-- Read a board cell (JS `this.board[i]`). -/
def Board.cell (b : Board) (i : Nat) : Option Char :=
  List.getD b i none

/-- JS `areCapturesAllowed()`: captures only from `turnCount ≥ 4` on. -/
def areCapturesAllowed (g : Game) : Bool := decide (4 ≤ g.turnCount)

/-- JS `getPawnMoves(fromIndex, color)`.  Index arithmetic that can go negative
(black moves, diagonal offsets) is done in `ℤ`, exactly as JS numbers; the
JS `%` on a possibly-negative index is `Int.tmod` (truncated remainder). -/
def getPawnMoves (g : Game) (fromIndex : Nat) (color : Color) : List MoveCandidate :=
  let row := getRow fromIndex
  let col := getCol fromIndex
  let direction : Int := if color = .white then 1 else -1
  let startRow := if color = .white then 1 else 6
  -- forward move (one square), and double move from the starting rank
  let forwardOne : Int := (fromIndex : Int) + 8 * direction
  let forward :=
    if 0 ≤ forwardOne ∧ forwardOne < 64 ∧ g.board.cell forwardOne.toNat = none then
      let one := [({ toIdx := forwardOne.toNat, isCapture := false } : MoveCandidate)]
      if row = startRow then
        let forwardTwo : Int := (fromIndex : Int) + 16 * direction
        if 0 ≤ forwardTwo ∧ forwardTwo < 64 ∧ g.board.cell forwardTwo.toNat = none then
          one ++ [{ toIdx := forwardTwo.toNat, isCapture := false, isDoublePush := true }]
        else one
      else one
    else []
  -- diagonal captures (offsets 7 and 9, wrap prevented by the column check)
  let captures := ([7, 9] : List Int).filterMap fun offset =>
    let captureIndex : Int := (fromIndex : Int) + offset * direction
    let captureCol : Int := Int.tmod captureIndex 8
    if (captureCol - (col : Int)).natAbs = 1 ∧ 0 ≤ captureIndex ∧ captureIndex < 64 then
      match g.board.cell captureIndex.toNat with
      | some targetPiece =>
          if getPieceColor targetPiece ≠ some color then
            some { toIdx := captureIndex.toNat, isCapture := true }
          else none
      | none => none
    else none
  -- en passant
  let enPassant :=
    match g.enPassantTarget with
    | some target =>
        let epCol := getCol target
        let epRow := if color = .white then 4 else 3
        if row = epRow ∧ ((col : Int) - (epCol : Int)).natAbs = 1 then
          [({ toIdx := target, isCapture := true, isEnPassant := true } : MoveCandidate)]
        else []
    | none => []
  forward ++ captures ++ enPassant

/-- Destination test shared by knight and king moves: on-board, and empty
or enemy-occupied. -/
def offsetMoves (g : Game) (fromIndex : Nat) (color : Color)
    (offsets : List (Int × Int)) : List MoveCandidate :=
  let row := getRow fromIndex
  let col := getCol fromIndex
  offsets.filterMap fun rc =>
    let newRow : Int := (row : Int) + rc.1
    let newCol : Int := (col : Int) + rc.2
    if 0 ≤ newRow ∧ newRow < 8 ∧ 0 ≤ newCol ∧ newCol < 8 then
      let toIndex := (newRow * 8 + newCol).toNat
      match g.board.cell toIndex with
      | none => some { toIdx := toIndex, isCapture := false }
      | some targetPiece =>
          if getPieceColor targetPiece ≠ some color then
            some { toIdx := toIndex, isCapture := true }
          else none
    else none

/-- JS `getKnightMoves(fromIndex, color)`: the 8 L-shaped offsets. -/
def getKnightMoves (g : Game) (fromIndex : Nat) (color : Color) : List MoveCandidate :=
  offsetMoves g fromIndex color
    [(-2, -1), (-2, 1), (-1, -2), (-1, 2), (1, -2), (1, 2), (2, -1), (2, 1)]

/-- JS `getKingMoves(fromIndex, color)`: the 8 unit steps. -/
def getKingMoves (g : Game) (fromIndex : Nat) (color : Color) : List MoveCandidate :=
  offsetMoves g fromIndex color
    [(-1, -1), (-1, 0), (-1, 1), (0, -1), (0, 1), (1, -1), (1, 0), (1, 1)]

/-- One ray of `getSlidingMoves`: walk from (row, col) in direction
(rowDir, colDir) until the board edge, an own piece (stop) or an enemy
piece (capture, then stop).  The JS `while` loop runs at most 7 steps on
an 8×8 board; `fuel` (started at 8) is a strict upper bound on the
remaining steps and never runs out. -/
def slideRay (g : Game) (color : Color) (rowDir colDir : Int) :
    Nat → Int → Int → List MoveCandidate
  | 0, _, _ => []
  | fuel + 1, currentRow, currentCol =>
    if 0 ≤ currentRow ∧ currentRow < 8 ∧ 0 ≤ currentCol ∧ currentCol < 8 then
      let toIndex := (currentRow * 8 + currentCol).toNat
      match g.board.cell toIndex with
      | none =>
          { toIdx := toIndex, isCapture := false } ::
            slideRay g color rowDir colDir fuel (currentRow + rowDir) (currentCol + colDir)
      | some targetPiece =>
          if getPieceColor targetPiece ≠ some color then
            [{ toIdx := toIndex, isCapture := true }]
          else []
    else []

/-- JS `getSlidingMoves(fromIndex, color, directions)`. -/
def getSlidingMoves (g : Game) (fromIndex : Nat) (color : Color)
    (directions : List (Int × Int)) : List MoveCandidate :=
  let row := getRow fromIndex
  let col := getCol fromIndex
  directions.flatMap fun rc =>
    slideRay g color rc.1 rc.2 8 ((row : Int) + rc.1) ((col : Int) + rc.2)

/-- JS `getBishopMoves`: diagonal sliding. -/
def getBishopMoves (g : Game) (fromIndex : Nat) (color : Color) : List MoveCandidate :=
  getSlidingMoves g fromIndex color [(-1, -1), (-1, 1), (1, -1), (1, 1)]

/-- JS `getRookMoves`: orthogonal sliding. -/
def getRookMoves (g : Game) (fromIndex : Nat) (color : Color) : List MoveCandidate :=
  getSlidingMoves g fromIndex color [(-1, 0), (1, 0), (0, -1), (0, 1)]

/-- JS `getQueenMoves`: all eight directions. -/
def getQueenMoves (g : Game) (fromIndex : Nat) (color : Color) : List MoveCandidate :=
  getSlidingMoves g fromIndex color
    [(-1, -1), (-1, 0), (-1, 1), (0, -1), (0, 1), (1, -1), (1, 0), (1, 1)]

/-- The `switch (pieceType)` dispatch inside `getValidMoves` (lower-cased
piece letter selects the generator; anything else yields no moves). -/
def pieceTypeMoves (g : Game) (fromIndex : Nat) (piece : Char) (pieceColor : Color) :
    List MoveCandidate :=
  match piece.toLower with
  | 'p' => getPawnMoves g fromIndex pieceColor
  | 'n' => getKnightMoves g fromIndex pieceColor
  | 'b' => getBishopMoves g fromIndex pieceColor
  | 'r' => getRookMoves g fromIndex pieceColor
  | 'q' => getQueenMoves g fromIndex pieceColor
  | 'k' => getKingMoves g fromIndex pieceColor
  | _ => []

/-- JS `getValidMoves(fromIndex)`: empty if no piece or wrong turn; otherwise
the piece-type moves, with captures filtered out while
`areCapturesAllowed()` is false.  (Moves that leave the own king in check
are deliberately not filtered.) -/
def getValidMoves (g : Game) (fromIndex : Nat) : List MoveCandidate :=
  match g.board.cell fromIndex with
  | none => []
  | some piece =>
    match getPieceColor piece with
    | some pieceColor =>
        if pieceColor ≠ g.currentTurn then []
        else
          let moves := pieceTypeMoves g fromIndex piece pieceColor
          if areCapturesAllowed g then moves
          else moves.filter fun move => !move.isCapture
    | none => []

/-- JS `findKing(color)`: `board.findIndex(p => p === kingPiece)`; the JS `-1`
for "not found" is embedded as `none`. -/
def findKing (g : Game) (color : Color) : Option Nat :=
  let kingPiece : Char := if color = .white then 'K' else 'k'
  g.board.findIdx? fun p => p == some kingPiece

/-- JS `getPawnAttacks(fromIndex, color)`: the diagonal-threat squares,
independent of occupancy. -/
def getPawnAttacks (_g : Game) (fromIndex : Nat) (color : Color) : List Nat :=
  let col := getCol fromIndex
  let direction : Int := if color = .white then 1 else -1
  ([7, 9] : List Int).filterMap fun offset =>
    let attackIndex : Int := (fromIndex : Int) + offset * direction
    let attackCol : Int := Int.tmod attackIndex 8
    if (attackCol - (col : Int)).natAbs = 1 ∧ 0 ≤ attackIndex ∧ attackIndex < 64 then
      some attackIndex.toNat
    else none

/-- The per-piece attack squares used by `isSquareAttacked` (pseudo-legal
moves, pawns via `getPawnAttacks`). -/
def attackSquares (g : Game) (i : Nat) (piece : Char) (byColor : Color) : List Nat :=
  match piece.toLower with
  | 'p' => getPawnAttacks g i byColor
  | 'n' => (getKnightMoves g i byColor).map (·.toIdx)
  | 'b' => (getBishopMoves g i byColor).map (·.toIdx)
  | 'r' => (getRookMoves g i byColor).map (·.toIdx)
  | 'q' => (getQueenMoves g i byColor).map (·.toIdx)
  | 'k' => (getKingMoves g i byColor).map (·.toIdx)
  | _ => []

/-- JS `isSquareAttacked(squareIndex, byColor)`: some piece of `byColor` has a
pseudo-legal move (capture-restriction ignored) landing on the square. -/
def isSquareAttacked (g : Game) (squareIndex : Nat) (byColor : Color) : Bool :=
  (List.range 64).any fun i =>
    match g.board.cell i with
    | none => false
    | some piece =>
        getPieceColor piece == some byColor &&
          (attackSquares g i piece byColor).contains squareIndex

/-- JS `isInCheck(color)`: locate the king; a missing king (`findIndex = -1`)
is reported as not in check. -/
def isInCheck (g : Game) (color : Color) : Bool :=
  match findKing g color with
  | none => false
  | some kingIndex => isSquareAttacked g kingIndex color.other

/-- JS `hasValidMoves(color)`: some piece of `color` has a non-empty
`getValidMoves` list (which also requires `color` to be the side to move,
as in the JS). -/
def hasValidMoves (g : Game) (color : Color) : Bool :=
  (List.range 64).any fun i =>
    match g.board.cell i with
    | none => false
    | some piece =>
        getPieceColor piece == some color && !(getValidMoves g i).isEmpty

/-- JS `isUntimed()`: `timeControl === 0`. -/
def isUntimed (g : Game) : Bool := g.timeControl == 0

/-- JS `updateTime()` at wall-clock instant `now`: deduct the elapsed time
since `lastTimestamp` from the side to move, floored at 0.  A no-op when
untimed, when the timer is not running, or when `lastTimestamp` is unset
(the JS `!this.lastTimestamp` is also true for timestamp 0, so `some 0`
is treated as unset too). -/
def updateTime (g : Game) (now : Nat) : Game :=
  if isUntimed g then g
  else if !g.timerRunning || g.lastTimestamp.getD 0 == 0 then g
  else
    let elapsed : Int := (now : Int) - (g.lastTimestamp.getD 0 : Int)
    if g.currentTurn = .white then
      { g with lastTimestamp := some now, whiteTime := max 0 (g.whiteTime - elapsed) }
    else
      { g with lastTimestamp := some now, blackTime := max 0 (g.blackTime - elapsed) }

/-- The `result` strings of a terminal `gameStatus`. -/
inductive StatusResult
  | leftInCheck
  | checkmate
  | stalemate
deriving DecidableEq, Repr

/-- The object returned by `checkGameStatus` (the human-readable `message`
string is presentation only and not embedded).  `result` is present only
on terminal statuses, `inCheck` only on the non-terminal check status. -/
structure GameStatus where
  gameOver : Bool
  result : Option StatusResult := none
  winner : Option Color := none
  inCheck : Bool := false
deriving DecidableEq, Repr

/-- JS `checkGameStatus()`: run against the *new* side to move after a move.
Mutates `gameOver`/`winner` on the game, so it returns the updated game
together with the status object. -/
def checkGameStatus (g : Game) : Game × GameStatus :=
  let currentColor := g.currentTurn
  let previousColor := currentColor.other
  -- the player who just moved left their own king in check: they lose
  if isInCheck g previousColor then
    ({ g with gameOver := true, winner := some currentColor },
     { gameOver := true, result := some .leftInCheck, winner := some currentColor })
  else
    let inCheck := isInCheck g currentColor
    let hasMoves := hasValidMoves g currentColor
    if !hasMoves then
      if inCheck then
        ({ g with gameOver := true, winner := some previousColor },
         { gameOver := true, result := some .checkmate, winner := some previousColor })
      else
        ({ g with gameOver := true },
         { gameOver := true, result := some .stalemate, winner := none })
    else if inCheck then
      (g, { gameOver := false, inCheck := true })
    else
      (g, { gameOver := false })

/-- The failure reasons of `makeMove` (`error` strings). -/
inductive MoveError
  | noPieceAtSource   -- 'No piece at source'
  | notYourTurn       -- 'Not your turn'
  | invalidMove       -- 'Invalid move'
deriving DecidableEq, Repr

/-- The JS return value of `makeMove`: `{success: false, error}` or
`{success: true, move, gameStatus}`. -/
inductive MoveResult
  | failure (error : MoveError)
  | success (move : MoveRecord) (gameStatus : GameStatus)
deriving DecidableEq, Repr

/-- The `success` field of a `makeMove` result. -/
def MoveResult.isSuccess : MoveResult → Bool
  | .failure _ => false
  | .success _ _ => true

/-- The `gameStatus` field of a successful `makeMove` result. -/
def MoveResult.status? : MoveResult → Option GameStatus
  | .failure _ => none
  | .success _ st => some st

/-- The mutation block of a successful `makeMove` up to the
`moveHistory.push`: en passant capture removal, piece movement,
en-passant-target update, auto-promotion, `lastMove` and the history
append.  The JS local `pieceColor` equals `currentTurn` here, since
validation has already passed.  Returns the updated game and the move
record. -/
def applyMoveCore (g : Game) (fromIndex toIndex : Nat) (piece : Char)
    (move : MoveCandidate) : Game × MoveRecord :=
  let pieceColor := g.currentTurn
  let capturedPiece := Board.cell g.board toIndex
  let moveRecord : MoveRecord :=
    { fromIdx := fromIndex, toIdx := toIndex, piece := piece,
      captured := capturedPiece, moveNumber := g.moveNumber }
  -- en passant capture: remove the passed-over pawn (not the destination
  -- occupant); the passed-over index is computed in ℤ as in JS
  let (board1, moveRecord) :=
    if move.isEnPassant then
      let capturedPawnIndex : Int :=
        (toIndex : Int) + (if pieceColor = .white then -8 else 8)
      let epCaptured :=
        if 0 ≤ capturedPawnIndex ∧ capturedPawnIndex < 64 then
          g.board.cell capturedPawnIndex.toNat
        else none
      (if 0 ≤ capturedPawnIndex ∧ capturedPawnIndex < 64 then
         g.board.set capturedPawnIndex.toNat none
       else g.board,
       { moveRecord with captured := epCaptured, isEnPassant := true })
    else (g.board, moveRecord)
  -- execute the move
  let board2 := (board1.set toIndex (some piece)).set fromIndex none
  -- en passant target: set only on a double pawn push
  let newEnPassantTarget : Option Nat :=
    if move.isDoublePush then
      some ((fromIndex : Int) + 8 * (if pieceColor = .white then 1 else -1)).toNat
    else none
  -- auto-promotion to queen
  let (board3, moveRecord) :=
    if piece = 'P' ∧ getRow toIndex = 7 then
      (board2.set toIndex (some 'Q'), { moveRecord with promotion := some 'Q' })
    else if piece = 'p' ∧ getRow toIndex = 0 then
      (board2.set toIndex (some 'q'), { moveRecord with promotion := some 'q' })
    else (board2, moveRecord)
  ({ g with board := board3, enPassantTarget := newEnPassantTarget,
            lastMove := some (fromIndex, toIndex),
            moveHistory := g.moveHistory ++ [moveRecord] },
   moveRecord)

/-- The statements of a successful `makeMove` between `updateTime()` and
`checkGameStatus()`: update the mover's clock before switching turns,
advance `moveNumber` (after a black move) and `turnCount`, flip
`currentTurn`, and reset the timestamp. -/
def advanceTurn (g : Game) (now : Nat) : Game :=
  let g2 := updateTime g now
  { g2 with
      moveNumber := if g2.currentTurn = .black then g2.moveNumber + 1 else g2.moveNumber,
      turnCount := g2.turnCount + 1,
      currentTurn := g2.currentTurn.other,
      lastTimestamp := some now }

/-- The success path of `makeMove` after validation: apply the move,
advance the turn, and compute the termination status. -/
def executeMove (g : Game) (fromIndex toIndex : Nat) (now : Nat) (piece : Char)
    (move : MoveCandidate) : Game × MoveResult :=
  let applied := applyMoveCore g fromIndex toIndex piece move
  let g3 := advanceTurn applied.1 now
  let checked := checkGameStatus g3
  (checked.1, .success applied.2 checked.2)

/-- JS `makeMove(fromIndex, toIndex)` at wall-clock instant `now`
(the two JS `Date.now()` calls within one move are the same tick).
Validation failures return before any mutation; the success body is
`executeMove` above. -/
def makeMove (g : Game) (fromIndex toIndex : Nat) (now : Nat) : Game × MoveResult :=
  match Board.cell g.board fromIndex with
  | none => (g, .failure .noPieceAtSource)
  | some piece =>
    if getPieceColor piece ≠ some g.currentTurn then
      (g, .failure .notYourTurn)
    else
      match (getValidMoves g fromIndex).find? (fun m => m.toIdx == toIndex) with
      | none => (g, .failure .invalidMove)
      | some move => executeMove g fromIndex toIndex now piece move

/-- The plain snapshot returned by `getState()` (all fields are always
present in a snapshot produced by `getState`). -/
structure GameState where
  board : Board
  currentTurn : Color
  moveNumber : Nat
  turnCount : Nat
  gameOver : Bool
  winner : Option Color
  lastMove : Option (Nat × Nat)
  capturesAllowed : Bool
  moveHistory : List MoveRecord
  whiteTime : Int
  blackTime : Int
  timeControl : Nat
  enPassantTarget : Option Nat
deriving DecidableEq, Repr

/-- JS `getState()`: runs `updateTime()` (hence the `now` argument and the
returned updated game) and takes a plain snapshot; the JS `[...arr]`
copies are value copies here. -/
def getState (g : Game) (now : Nat) : Game × GameState :=
  let g := updateTime g now
  (g,
   { board := g.board, currentTurn := g.currentTurn, moveNumber := g.moveNumber,
     turnCount := g.turnCount, gameOver := g.gameOver, winner := g.winner,
     lastMove := g.lastMove, capturesAllowed := areCapturesAllowed g,
     moveHistory := g.moveHistory, whiteTime := g.whiteTime,
     blackTime := g.blackTime, timeControl := g.timeControl,
     enPassantTarget := g.enPassantTarget })

/-- JS `loadState(state)` for a snapshot produced by `getState`.  The JS
defaulting (`state.gameOver || false`, `state.winner || null`,
`state.lastMove || null`, `state.moveHistory || []`, `??` fallbacks for
`turnCount`, the clocks, `timeControl` and `enPassantTarget`) only fires
for absent/null fields; on a `getState` snapshot every field is present,
`x || false` / `x || null` / `x ?? d` are the identity on the embedded
values (`none` loads as `none`), so the embedded `loadState` assigns the
snapshot fields directly.  `lastTimestamp` and `timerRunning` are not
assigned by `loadState`. -/
def loadState (g : Game) (state : GameState) : Game :=
  { g with
      board := state.board,
      currentTurn := state.currentTurn,
      moveNumber := state.moveNumber,
      turnCount := state.turnCount,
      gameOver := state.gameOver,
      winner := state.winner,
      lastMove := state.lastMove,
      moveHistory := state.moveHistory,
      whiteTime := state.whiteTime,
      blackTime := state.blackTime,
      timeControl := state.timeControl,
      enPassantTarget := state.enPassantTarget }

/-- The `pickRandom` helper of `generateStartingPosition`: pick the element
at index `Math.floor(Math.random() * arr.length)` and splice it out.  The
draw is modelled by an arbitrary `r : ℕ` reduced mod the length (this is
exactly the range the JS draw produces).  On an empty list (never reached
for the zones used) it returns the off-board sentinel 64. -/
def pickRandom (arr : List Nat) (r : Nat) : Nat × List Nat :=
  if arr.length = 0 then (64, [])
  else
    let index := r % arr.length
    (arr.getD index 64, arr.eraseIdx index)

/-- The white/black pawn placement loop: `n` times, pick-and-remove a cell
from the pawn zone, place a pawn there, and also remove that cell from the
piece zone (`pieceZone.filter(idx => idx !== pos)`).  `rand k` is the
`Math.random()` draw of step `k`; returns the board, both remaining zones
and the next draw index. -/
def placePawnsLoop (rand : Nat → Nat) (pawn : Char) :
    Nat → Board → List Nat → List Nat → Nat → Board × List Nat × List Nat × Nat
  | 0, b, pawnZone, pieceZone, k => (b, pawnZone, pieceZone, k)
  | n + 1, b, pawnZone, pieceZone, k =>
    let picked := pickRandom pawnZone (rand k)
    placePawnsLoop rand pawn n (b.set picked.1 (some pawn)) picked.2
      (pieceZone.filter fun idx => idx ≠ picked.1) (k + 1)

/-- The piece placement loop: for each piece of `pieces` in order,
pick-and-remove a cell from the zone and place the piece there. -/
def placePiecesLoop (rand : Nat → Nat) :
    List Char → Board → List Nat → Nat → Board × List Nat × Nat
  | [], b, zone, k => (b, zone, k)
  | p :: ps, b, zone, k =>
    let picked := pickRandom zone (rand k)
    placePiecesLoop rand ps (b.set picked.1 (some p)) picked.2 (k + 1)

/-- JS `generateStartingPosition()`: random legal Kalas layout, with the
`Math.random()` draws supplied by the stream `rand` (draw `k` of the run
is `rand k`).  Zones (0-indexed): white king 0–7, white pawns 8–31,
white pieces 0–23; black king 56–63, black pawns 24–55 (filtered to empty
cells), black pieces 40–63 (filtered to empty cells). -/
def generateStartingPosition (rand : Nat → Nat) : Board :=
  let b0 : Board := List.replicate 64 none
  let whiteKingZone := List.range 8                         -- indices 0-7
  let whitePawnZone := (List.range 24).map (· + 8)          -- indices 8-31
  let whitePieceZone := List.range 24                       -- indices 0-23
  let blackKingZone := (List.range 8).map (· + 56)          -- indices 56-63
  let blackPawnZone := (List.range 32).map (· + 24)         -- indices 24-55
  let blackPieceZone := (List.range 24).map (· + 40)        -- indices 40-63
  -- place white king, and remove its cell from the piece zone
  let pickedWK := pickRandom whiteKingZone (rand 0)
  let b1 : Board := b0.set pickedWK.1 (some 'K')
  let whitePieceZone := whitePieceZone.filter fun i => i ≠ pickedWK.1
  -- place the 8 white pawns
  let afterWP := placePawnsLoop rand 'P' 8 b1 whitePawnZone whitePieceZone 1
  let b2 := afterWP.1
  let whitePieceZone := afterWP.2.2.1
  let k2 := afterWP.2.2.2
  -- place white Q, R, R, B, B, N, N on still-empty piece-zone cells
  let whitePieces : List Char := ['Q', 'R', 'R', 'B', 'B', 'N', 'N']
  let whitePieceZone := whitePieceZone.filter fun idx => b2.cell idx == none
  let afterWPieces := placePiecesLoop rand whitePieces b2 whitePieceZone k2
  let b3 := afterWPieces.1
  let k3 := afterWPieces.2.2
  -- place black king, and remove its cell from the piece zone
  let pickedBK := pickRandom blackKingZone (rand k3)
  let b4 : Board := b3.set pickedBK.1 (some 'k')
  let blackPieceZone := blackPieceZone.filter fun i => i ≠ pickedBK.1
  -- black pawn zone: only still-empty cells (white pawns may sit on rank 4)
  let blackPawnZone := blackPawnZone.filter fun idx => b4.cell idx == none
  -- place the 8 black pawns
  let afterBP := placePawnsLoop rand 'p' 8 b4 blackPawnZone blackPieceZone (k3 + 1)
  let b5 := afterBP.1
  let blackPieceZone := afterBP.2.2.1
  let k5 := afterBP.2.2.2
  -- place black q, r, r, b, b, n, n on still-empty piece-zone cells
  let blackPieces : List Char := ['q', 'r', 'r', 'b', 'b', 'n', 'n']
  let blackPieceZone := blackPieceZone.filter fun idx => b5.cell idx == none
  let afterBPieces := placePiecesLoop rand blackPieces b5 blackPieceZone k5
  afterBPieces.1

/-! ## The search engine (`ChessAI`, `public/ai.js`) -/

/-- AI difficulty levels (`'easy' | 'medium' | 'hard'`; any other string
behaves like the default depth). -/
inductive Difficulty
  | easy
  | medium
  | hard
deriving DecidableEq, Repr

/-- JS `getDepthForDifficulty()`: easy 1, medium 3, hard 4. -/
def getDepthForDifficulty : Difficulty → Nat
  | .easy => 1
  | .medium => 3
  | .hard => 4

/-- JS `ChessAI.PIECE_VALUES[piece] || 0`.  Note: the table is keyed by the
Unicode chess glyphs, exactly as in the source. -/
def pieceValue : Char → Int
  | '♙' => 100 | '♟' => -100
  | '♘' => 320 | '♞' => -320
  | '♗' => 330 | '♝' => -330
  | '♖' => 500 | '♜' => -500
  | '♕' => 900 | '♛' => -900
  | '♔' => 20000 | '♚' => -20000
  | _ => 0

/-- JS `ChessAI.PAWN_TABLE`. -/
def PAWN_TABLE : List Int :=
  [0,  0,  0,  0,  0,  0,  0,  0,
   50, 50, 50, 50, 50, 50, 50, 50,
   10, 10, 20, 30, 30, 20, 10, 10,
   5,  5, 10, 25, 25, 10,  5,  5,
   0,  0,  0, 20, 20,  0,  0,  0,
   5, -5,-10,  0,  0,-10, -5,  5,
   5, 10, 10,-20,-20, 10, 10,  5,
   0,  0,  0,  0,  0,  0,  0,  0]

/-- JS `ChessAI.KNIGHT_TABLE`. -/
def KNIGHT_TABLE : List Int :=
  [-50,-40,-30,-30,-30,-30,-40,-50,
   -40,-20,  0,  0,  0,  0,-20,-40,
   -30,  0, 10, 15, 15, 10,  0,-30,
   -30,  5, 15, 20, 20, 15,  5,-30,
   -30,  0, 15, 20, 20, 15,  0,-30,
   -30,  5, 10, 15, 15, 10,  5,-30,
   -40,-20,  0,  5,  5,  0,-20,-40,
   -50,-40,-30,-30,-30,-30,-40,-50]

/-- JS `ChessAI.BISHOP_TABLE`. -/
def BISHOP_TABLE : List Int :=
  [-20,-10,-10,-10,-10,-10,-10,-20,
   -10,  0,  0,  0,  0,  0,  0,-10,
   -10,  0,  5, 10, 10,  5,  0,-10,
   -10,  5,  5, 10, 10,  5,  5,-10,
   -10,  0, 10, 10, 10, 10,  0,-10,
   -10, 10, 10, 10, 10, 10, 10,-10,
   -10,  5,  0,  0,  0,  0,  5,-10,
   -20,-10,-10,-10,-10,-10,-10,-20]

/-- JS `ChessAI.ROOK_TABLE`. -/
def ROOK_TABLE : List Int :=
  [0,  0,  0,  0,  0,  0,  0,  0,
   5, 10, 10, 10, 10, 10, 10,  5,
   -5,  0,  0,  0,  0,  0,  0, -5,
   -5,  0,  0,  0,  0,  0,  0, -5,
   -5,  0,  0,  0,  0,  0,  0, -5,
   -5,  0,  0,  0,  0,  0,  0, -5,
   -5,  0,  0,  0,  0,  0,  0, -5,
   0,  0,  0,  5,  5,  0,  0,  0]

/-- JS `ChessAI.QUEEN_TABLE`. -/
def QUEEN_TABLE : List Int :=
  [-20,-10,-10, -5, -5,-10,-10,-20,
   -10,  0,  0,  0,  0,  0,  0,-10,
   -10,  0,  5,  5,  5,  5,  0,-10,
   -5,  0,  5,  5,  5,  5,  0, -5,
   0,  0,  5,  5,  5,  5,  0, -5,
   -10,  5,  5,  5,  5,  5,  0,-10,
   -10,  0,  5,  0,  0,  0,  0,-10,
   -20,-10,-10, -5, -5,-10,-10,-20]

/-- JS `ChessAI.KING_TABLE`. -/
def KING_TABLE : List Int :=
  [-30,-40,-40,-50,-50,-40,-40,-30,
   -30,-40,-40,-50,-50,-40,-40,-30,
   -30,-40,-40,-50,-50,-40,-40,-30,
   -30,-40,-40,-50,-50,-40,-40,-30,
   -20,-30,-30,-40,-40,-30,-30,-20,
   -10,-20,-20,-20,-20,-20,-20,-10,
   20, 20,  0,  0,  0,  0, 20, 20,
   20, 30, 10,  0,  0, 10, 30, 20]

/-- JS `getPieceSquareValue(piece, index, isWhite)`: select the table by the
piece glyph (`default: return 0` for any other character), flip the index
for white (tables are written from rank 8 downwards), negate for black. -/
def getPieceSquareValue (piece : Char) (index : Nat) (isWhite : Bool) : Int :=
  let table? : Option (List Int) :=
    match piece with
    | '♙' | '♟' => some PAWN_TABLE
    | '♘' | '♞' => some KNIGHT_TABLE
    | '♗' | '♝' => some BISHOP_TABLE
    | '♖' | '♜' => some ROOK_TABLE
    | '♕' | '♛' => some QUEEN_TABLE
    | '♔' | '♚' => some KING_TABLE
    | _ => none
  match table? with
  | none => 0
  | some table =>
    let row := index / 8
    let col := index % 8
    let adjustedIndex := if isWhite then (7 - row) * 8 + col else row * 8 + col
    if isWhite then table.getD adjustedIndex 0 else -(table.getD adjustedIndex 0)

/-- The mobility count for one color inside `evaluatePosition`: the JS
temporarily sets `game.currentTurn` to the piece's color, sums
`getValidMoves(i).length` over that color's pieces, and restores the turn
(a pure no-op here). -/
def mobilityFor (g : Game) (c : Color) : Nat :=
  ((List.range 64).map fun i =>
    match g.board.cell i with
    | none => 0
    | some piece =>
        if (isWhitePiece piece && c == .white) || (!isWhitePiece piece && c == .black) then
          (getValidMoves { g with currentTurn := c } i).length
        else 0).sum

/-- JS `evaluatePosition(game)` (positive favors white).  For `easy`
difficulty the JS adds `(Math.random() - 0.5) * 50`; that draw is the
`noise` argument (only added at easy, `|noise| < 25` in JS).  Terminal
positions short-circuit on `winner`. -/
def evaluatePosition (difficulty : Difficulty) (noise : Int) (g : Game) : Int :=
  if g.gameOver then
    match g.winner with
    | some .white => 100000
    | some .black => -100000
    | none => 0
  else
    let material :=
      ((List.range 64).map fun i =>
        match g.board.cell i with
        | none => 0
        | some piece =>
            pieceValue piece + getPieceSquareValue piece i (isWhitePiece piece)).sum
    let mobility := ((mobilityFor g .white : Int) - (mobilityFor g .black : Int)) * 5
    let checkBonus :=
      (if isInCheck g .black then (50 : Int) else 0) +
      (if isInCheck g .white then (-50 : Int) else 0)
    material + mobility + checkBonus + (if difficulty = .easy then noise else 0)

/-- The move objects the AI works with (`{from, to, isCapture}`; `from`
and `to` are reserved words in Lean, hence `fromIdx`/`toIdx`). -/
structure AIMove where
  fromIdx : Nat
  toIdx : Nat
  isCapture : Bool
deriving DecidableEq, Repr

instance : Inhabited AIMove := ⟨{ fromIdx := 0, toIdx := 0, isCapture := false }⟩

/-- JS `getAllMoves(game, color)`: temporarily set `currentTurn` to `color`
(restored afterwards — a pure no-op here) and collect `getValidMoves` for
every piece of that color. -/
def getAllMoves (g : Game) (color : Color) : List AIMove :=
  (List.range 64).flatMap fun i =>
    match g.board.cell i with
    | none => []
    | some piece =>
        if getPieceColor piece == some color then
          (getValidMoves { g with currentTurn := color } i).map fun move =>
            { fromIdx := i, toIdx := move.toIdx, isCapture := move.isCapture }
        else []

/-- JS `makeTemporaryMove(game, from, to)`, forward direction: move the piece,
promote on the last rank (the promotion test compares against the Unicode
pawn glyphs, exactly as in the source), advance `moveNumber` after a black
move and flip the turn.  The closure-captured undo values are recovered
from the original game by `undoTemporaryMove`. -/
def makeTemporaryMove (g : Game) (fromIdx toIdx : Nat) : Game :=
  let movedPiece := g.board.cell fromIdx
  let board1 := (g.board.set toIdx movedPiece).set fromIdx none
  let board2 :=
    if movedPiece = some '♙' ∧ getRow toIdx = 7 then
      board1.set toIdx (if isWhitePiece '♙' then some '♕' else some '♛')
    else if movedPiece = some '♟' ∧ getRow toIdx = 0 then
      board1.set toIdx (if isWhitePiece '♟' then some '♕' else some '♛')
    else board1
  { g with
      board := board2,
      moveNumber := if g.currentTurn = .black then g.moveNumber + 1 else g.moveNumber,
      currentTurn := g.currentTurn.other }

/-- The undo closure returned by `makeTemporaryMove`: restore the two
touched cells from their pre-move contents and reset turn and move number
(all captured from the original game `orig`). -/
def undoTemporaryMove (orig : Game) (fromIdx toIdx : Nat) (g : Game) : Game :=
  { g with
      board := (g.board.set fromIdx (orig.board.cell fromIdx)).set toIdx (orig.board.cell toIdx),
      currentTurn := orig.currentTurn,
      moveNumber := orig.moveNumber }

/-- The move ordering of `minimax`/`findBestMove`: `sort` with a comparator
putting captures first and returning 0 otherwise.  JS `Array.sort` is
stable, so the result is the captures in original order followed by the
non-captures in original order. -/
def sortCapturesFirst (moves : List AIMove) : List AIMove :=
  moves.filter (fun m => m.isCapture) ++ moves.filter (fun m => !m.isCapture)

/-- JS `Infinity` sentinel for the alpha-beta window: strictly larger than
every score the search can produce (scores are bounded by ±100000 plus
small bounded terms), so comparisons against it behave exactly like the
JS `Infinity`. -/
def INF : Int := 1000000000

/-- The maximizing inner loop of `minimax`: fold over the ordered moves,
recursing via `next` (the depth-smaller search with `isMaximizing`
flipped), tracking `maxEval` and `alpha`, breaking on `beta <= alpha`.
The JS applies `makeTemporaryMove` and undoes it after the recursive
call; in the pure embedding each child is built from the same `g`. -/
def abMaxLoop (next : Game → Int → Int → Int) (g : Game) (beta : Int) :
    List AIMove → Int → Int → Int
  | [], maxEval, _ => maxEval
  | move :: rest, maxEval, alpha =>
    let evalScore := next (makeTemporaryMove g move.fromIdx move.toIdx) alpha beta
    let maxEval := max maxEval evalScore
    let alpha := max alpha evalScore
    if beta ≤ alpha then maxEval
    else abMaxLoop next g beta rest maxEval alpha

/-- The minimizing inner loop of `minimax` (mirror of `abMaxLoop`). -/
def abMinLoop (next : Game → Int → Int → Int) (g : Game) (alpha : Int) :
    List AIMove → Int → Int → Int
  | [], minEval, _ => minEval
  | move :: rest, minEval, beta =>
    let evalScore := next (makeTemporaryMove g move.fromIdx move.toIdx) alpha beta
    let minEval := min minEval evalScore
    let beta := min beta evalScore
    if beta ≤ alpha then minEval
    else abMinLoop next g alpha rest minEval beta

/-- JS `minimax(game, depth, alpha, beta, isMaximizing)` with alpha-beta
pruning.  `maxDepth` is the `this.maxDepth` used in the mate-distance
bias.  `evaluatePosition` is called with noise 0: the random perturbation
exists only at easy difficulty, whose search depth is 1 (the `findBestMove`
claims verified here concern medium difficulty, where evaluation is
deterministic). -/
def minimax (difficulty : Difficulty) (maxDepth : Nat) :
    Nat → Game → Int → Int → Bool → Int
  | 0, g, _, _, _ => evaluatePosition difficulty 0 g
  | depth + 1, g, alpha, beta, isMaximizing =>
    let color : Color := if isMaximizing then .white else .black
    let moves := getAllMoves g color
    if moves.isEmpty then
      -- no moves: checkmate (worst score, biased toward faster mates) or stalemate
      if isInCheck g color then
        if isMaximizing then -100000 + ((maxDepth : Int) - ((depth + 1 : Nat) : Int))
        else 100000 - ((maxDepth : Int) - ((depth + 1 : Nat) : Int))
      else 0
    else
      let moves := sortCapturesFirst moves
      if isMaximizing then
        abMaxLoop (fun g2 a b => minimax difficulty maxDepth depth g2 a b false)
          g beta moves (-INF) alpha
      else
        abMinLoop (fun g2 a b => minimax difficulty maxDepth depth g2 a b true)
          g alpha moves INF beta

/-- The `Math.random()` draws consumed by one `findBestMove` call:
`easyBranch` is `Math.random() < 0.3` (easy), `easyIdx` the index draw of
the easy random move, `medBranch` is `Math.random() < 0.15` (medium),
`medIdx` the index draw of the top-3 pick. -/
structure RandDraws where
  easyBranch : Bool
  easyIdx : Nat
  medBranch : Bool
  medIdx : Nat
deriving DecidableEq, Repr

/-- The root selection loop of `findBestMove`: keep the move whose search
score strictly improves on the best so far (max for white, min for
black); ties keep the earlier move. -/
def rootLoop (isMaximizing : Bool) :
    List (AIMove × Int) → Option AIMove → Int → Option AIMove
  | [], bestMove, _ => bestMove
  | (move, score) :: rest, bestMove, bestScore =>
    if (if isMaximizing then bestScore < score else score < bestScore) then
      rootLoop isMaximizing rest (some move) score
    else
      rootLoop isMaximizing rest bestMove bestScore

/-- The score `findBestMove` computes for one root move: apply the move
temporarily and search the remaining `maxDepth - 1` plies with a full
window (the root game is restored by the undo closure afterwards, so every
root move is scored from the same game). -/
def rootScore (difficulty : Difficulty) (g : Game) (isMaximizing : Bool)
    (move : AIMove) : Int :=
  let maxDepth := getDepthForDifficulty difficulty
  minimax difficulty maxDepth (maxDepth - 1)
    (makeTemporaryMove g move.fromIdx move.toIdx) (-INF) INF (!isMaximizing)

/-- JS `findBestMove(game)`: null when no legal move; for easy, with
probability 0.3 a uniformly random legal move; otherwise score every move
(captures first) and keep the best; for medium, with probability 0.15 and
more than one legal move, discard the best move and return a uniformly
random element of the first `min(3, moves.length)` entries of the
captures-first ordering. -/
def findBestMove (difficulty : Difficulty) (r : RandDraws) (g : Game) : Option AIMove :=
  let aiColor := g.currentTurn
  let isMaximizing := aiColor == Color.white
  let moves := getAllMoves g aiColor
  if moves.isEmpty then none
  else if difficulty = .easy ∧ r.easyBranch then
    some (moves.getD (r.easyIdx % moves.length) default)
  else
    let moves := sortCapturesFirst moves
    let bestMove :=
      rootLoop isMaximizing
        (moves.map fun m => (m, rootScore difficulty g isMaximizing m))
        none (if isMaximizing then -INF else INF)
    if difficulty = .medium ∧ r.medBranch ∧ 1 < moves.length then
      let topMoves := moves.take (min 3 moves.length)
      some (topMoves.getD (r.medIdx % topMoves.length) default)
    else bestMove

/-! ## Board access lemmas -/

theorem cell_set_self (b : Board) (i : Nat) (x : Option Char) (h : i < b.length) :
    Board.cell (b.set i x) i = x := by
  unfold Board.cell
  rw [List.getD_eq_getElem?_getD, List.getElem?_set_self h]
  rfl

theorem cell_set_ne (b : Board) (i j : Nat) (x : Option Char) (h : j ≠ i) :
    Board.cell (b.set i x) j = b.cell j := by
  unfold Board.cell
  rw [List.getD_eq_getElem?_getD, List.getElem?_set_ne (Ne.symm h),
    ← List.getD_eq_getElem?_getD]

theorem cell_replicate (i : Nat) :
    Board.cell (List.replicate 64 (none : Option Char)) i = none := by
  unfold Board.cell
  rw [List.getD_eq_getElem?_getD, List.getElem?_replicate]
  split <;> rfl

theorem cell_of_length_le (b : Board) (i : Nat) (h : b.length ≤ i) : b.cell i = none := by
  unfold Board.cell
  rw [List.getD_eq_getElem?_getD, List.getElem?_eq_none h]
  rfl

/-- Setting a currently-empty, in-range cell increases a `countP` of the
board by exactly the contribution of the new value. -/
theorem countP_set_of_cell_none (b : Board) (i : Nat) (x : Option Char)
    (p : Option Char → Bool) (hi : i < b.length) (hcell : b.cell i = none)
    (hp : p none = false) :
    List.countP p (List.set b i x) = List.countP p b + (if p x then 1 else 0) := by
  induction b generalizing i with
  | nil => simp at hi
  | cons a t ih =>
    cases i with
    | zero =>
        have ha : a = none := by simpa [Board.cell, List.getD] using hcell
        subst ha
        simp [List.countP_cons, hp]
    | succ n =>
        have hn : n < t.length := by simpa using hi
        have hc : Board.cell t n = none := by
          simpa [Board.cell, List.getD_cons_succ] using hcell
        simp only [List.set_cons_succ, List.countP_cons, ih n hn hc]
        omega

/-! ## Concrete games used as witnesses -/

/-- The empty 64-cell board. -/
def emptyBoard : Board := List.replicate 64 none

/-! ## C10: a missing king means "not in check" -/

/-- Claim C10. For every board state in which `findKing(color)` finds no king
(the JS `-1`, e.g. on search scratch positions after a king capture),
`isInCheck(color)` returns `false` instead of failing or reading out of
bounds. -/
theorem isInCheck_eq_false_of_findKing_none (g : Game) (c : Color)
    (h : findKing g c = none) : isInCheck g c = false := by
  unfold isInCheck
  rw [h]

/-- Witness for C10 at a concrete kingless game (a fresh empty-board game). -/
theorem isInCheck_eq_false_of_findKing_none_witness :
    findKing (Game.new 10) .white = none ∧ isInCheck (Game.new 10) .white = false :=
  ⟨by decide, isInCheck_eq_false_of_findKing_none (Game.new 10) .white (by decide)⟩

/-! ## C5: getState/loadState round-trip -/

/-- Claim C5. Round-trip law: loading the snapshot returned by `getState`
(into any Game `h`) reproduces a Game observationally identical to the
one `getState` snapshotted — same board array, `currentTurn`,
`moveNumber`, `turnCount`, `gameOver`, `winner`, `lastMove`, en-passant
target, both clock values, time control, and move-history length
(`getState` first runs `updateTime`, so the reference game is the updated
one it returns). -/
theorem loadState_getState_roundtrip (g h : Game) (now : Nat) :
    loadState h (getState g now).2 = { (getState g now).1 with
      lastTimestamp := h.lastTimestamp, timerRunning := h.timerRunning } ∧
    (loadState h (getState g now).2).board = (getState g now).1.board ∧
    (loadState h (getState g now).2).currentTurn = (getState g now).1.currentTurn ∧
    (loadState h (getState g now).2).moveNumber = (getState g now).1.moveNumber ∧
    (loadState h (getState g now).2).turnCount = (getState g now).1.turnCount ∧
    (loadState h (getState g now).2).gameOver = (getState g now).1.gameOver ∧
    (loadState h (getState g now).2).winner = (getState g now).1.winner ∧
    (loadState h (getState g now).2).lastMove = (getState g now).1.lastMove ∧
    (loadState h (getState g now).2).enPassantTarget = (getState g now).1.enPassantTarget ∧
    (loadState h (getState g now).2).whiteTime = (getState g now).1.whiteTime ∧
    (loadState h (getState g now).2).blackTime = (getState g now).1.blackTime ∧
    (loadState h (getState g now).2).timeControl = (getState g now).1.timeControl ∧
    (loadState h (getState g now).2).moveHistory.length = (getState g now).1.moveHistory.length :=
  ⟨rfl, rfl, rfl, rfl, rfl, rfl, rfl, rfl, rfl, rfl, rfl, rfl, rfl⟩

/-! ## C3: capture restriction on turns 1-3 -/

/-- Claim C3. For `turnCount` in {1,2,3}, `getValidMoves` never returns a
candidate with `isCapture = true` (the filter also removes en passant
captures, which carry `isCapture: true`); from `turnCount ≥ 4` on, the
capture filter is not applied: for a piece of the side to move the result
is exactly the raw piece-type move list. -/
theorem getValidMoves_capture_restriction (g : Game) (i : Nat) :
    (g.turnCount = 1 ∨ g.turnCount = 2 ∨ g.turnCount = 3 →
      ∀ m ∈ getValidMoves g i, m.isCapture = false) ∧
    (4 ≤ g.turnCount → ∀ piece, Board.cell g.board i = some piece →
      getPieceColor piece = some g.currentTurn →
      getValidMoves g i = pieceTypeMoves g i piece g.currentTurn) := by
  constructor
  · intro h m hm
    have hcap : areCapturesAllowed g = false := by
      simp only [areCapturesAllowed, decide_eq_false_iff_not]
      omega
    unfold getValidMoves at hm
    split at hm
    · simp at hm
    · split at hm
      · split at hm
        · simp at hm
        · rw [hcap] at hm
          simp only [Bool.false_eq_true, if_false, List.mem_filter] at hm
          simpa using hm.2
      · simp at hm
  · intro h4 piece hc hpc
    have hcap : areCapturesAllowed g = true := by
      simp [areCapturesAllowed, h4]
    unfold getValidMoves
    rw [hc]
    simp only [hpc, hcap, ne_eq, not_true_eq_false, if_false, if_true]

/-- Board for the C3 witness: white king a1, white pawn d4, black pawn e5
(a diagonal capture target), black king h8. -/
def capBoard : Board :=
  (((emptyBoard.set 0 (some 'K')).set 27 (some 'P')).set 36 (some 'p')).set 63 (some 'k')

/-- C3 witness game on turn 3 (captures still forbidden). -/
def gCap3 : Game := { Game.new 10 with board := capBoard, turnCount := 3 }

/-- C3 witness game on turn 4 (captures allowed). -/
def gCap4 : Game := { Game.new 10 with board := capBoard, turnCount := 4 }

/-- Witness for C3: on turn 3 the pawn's capture of e5 is filtered out of
`getValidMoves`; on turn 4 `getValidMoves` is the unfiltered move list. -/
theorem getValidMoves_capture_restriction_witness :
    (getValidMoves gCap3 27).all (fun m => !m.isCapture) = true ∧
    getValidMoves gCap4 27 = pieceTypeMoves gCap4 27 'P' .white := by
  constructor
  · have h := (getValidMoves_capture_restriction gCap3 27).1 (Or.inr (Or.inr rfl))
    simp only [List.all_eq_true]
    intro m hm
    simpa using h m hm
  · exact (getValidMoves_capture_restriction gCap4 27).2 (by decide) 'P' (by decide) (by decide)

/-! ## C9: a failed makeMove mutates nothing -/

/-- Claim C9. Atomicity on failure: whenever `makeMove` returns a failure
result (empty source cell, wrong-turn piece, or destination not in the
legal set), the Game is returned exactly as it was — every field
(board, `currentTurn`, `moveNumber`, `turnCount`, `gameOver`, `winner`,
`lastMove`, `enPassantTarget`, `moveHistory`, both clocks) unchanged. -/
theorem makeMove_failure_leaves_game_unchanged (g : Game) (fromIndex toIndex now : Nat)
    (h : (makeMove g fromIndex toIndex now).2.isSuccess = false) :
    (makeMove g fromIndex toIndex now).1 = g := by
  rcases hM : makeMove g fromIndex toIndex now with ⟨g1, r⟩
  rw [hM] at h
  unfold makeMove at hM
  repeat' split at hM
  all_goals first
    | (simp only [Prod.mk.injEq] at hM
       exact hM.1.symm)
    | (rw [← hM] at h
       simp [executeMove, MoveResult.isSuccess] at h)

/-- Witness for C9: on a fresh empty-board game every move fails (empty
source cell) and the game is unchanged. -/
theorem makeMove_failure_leaves_game_unchanged_witness :
    (makeMove (Game.new 10) 0 1 0).2.isSuccess = false ∧
    (makeMove (Game.new 10) 0 1 0).1 = Game.new 10 :=
  ⟨by decide, makeMove_failure_leaves_game_unchanged (Game.new 10) 0 1 0 (by decide)⟩

/-! ## C4: leaving the own king in check loses immediately -/

theorem Color.other_other (c : Color) : c.other.other = c := by
  cases c <;> rfl

theorem updateTime_currentTurn (g : Game) (now : Nat) :
    (updateTime g now).currentTurn = g.currentTurn := by
  unfold updateTime
  repeat' split
  all_goals rfl

theorem updateTime_turnCount (g : Game) (now : Nat) :
    (updateTime g now).turnCount = g.turnCount := by
  unfold updateTime
  repeat' split
  all_goals rfl

theorem advanceTurn_currentTurn (g : Game) (now : Nat) :
    (advanceTurn g now).currentTurn = g.currentTurn.other := by
  simp only [advanceTurn]
  rw [updateTime_currentTurn]

theorem advanceTurn_turnCount (g : Game) (now : Nat) :
    (advanceTurn g now).turnCount = g.turnCount + 1 := by
  simp only [advanceTurn]
  rw [updateTime_turnCount]

theorem applyMoveCore_currentTurn (g : Game) (fromIndex toIndex : Nat) (piece : Char)
    (move : MoveCandidate) :
    (applyMoveCore g fromIndex toIndex piece move).1.currentTurn = g.currentTurn := by
  unfold applyMoveCore
  repeat' split
  all_goals rfl

theorem applyMoveCore_turnCount (g : Game) (fromIndex toIndex : Nat) (piece : Char)
    (move : MoveCandidate) :
    (applyMoveCore g fromIndex toIndex piece move).1.turnCount = g.turnCount := by
  unfold applyMoveCore
  repeat' split
  all_goals rfl

/-- JS `checkGameStatus` only ever updates `gameOver`/`winner`, so check
detection on the returned game agrees with the input game. -/
theorem isInCheck_checkGameStatus_fst (g : Game) (c : Color) :
    isInCheck (checkGameStatus g).1 c = isInCheck g c := by
  simp only [checkGameStatus]
  repeat' split
  all_goals rfl

/-- The `left-in-check` branch of `checkGameStatus`: if the player who just
moved (the opponent of the new `currentTurn`) is in check, the game ends
with the new current player as winner. -/
theorem checkGameStatus_leftInCheck (g : Game)
    (h : isInCheck g g.currentTurn.other = true) :
    checkGameStatus g =
      ({ g with gameOver := true, winner := some g.currentTurn },
       { gameOver := true, result := some .leftInCheck,
         winner := some g.currentTurn, inCheck := false }) := by
  simp [checkGameStatus, h]

/-- Claim C4. Whenever `makeMove` succeeds and the mover's own king is
attacked afterwards (the mover left their king in check), the returned
`gameStatus` is the terminal `left-in-check` result with the opponent as
winner, the game is marked over with that winner — and the move *was*
executed (turn flipped, `turnCount` advanced) rather than rejected. -/
theorem makeMove_left_in_check_loses (g : Game) (fromIndex toIndex now : Nat)
    (hs : (makeMove g fromIndex toIndex now).2.isSuccess = true)
    (hc : isInCheck (makeMove g fromIndex toIndex now).1 g.currentTurn = true) :
    (makeMove g fromIndex toIndex now).2.status? =
      some { gameOver := true, result := some .leftInCheck,
             winner := some g.currentTurn.other, inCheck := false } ∧
    (makeMove g fromIndex toIndex now).1.gameOver = true ∧
    (makeMove g fromIndex toIndex now).1.winner = some g.currentTurn.other ∧
    (makeMove g fromIndex toIndex now).1.currentTurn = g.currentTurn.other ∧
    (makeMove g fromIndex toIndex now).1.turnCount = g.turnCount + 1 := by
  rcases hM : makeMove g fromIndex toIndex now with ⟨g1, r⟩
  rw [hM] at hs hc
  unfold makeMove at hM
  repeat' split at hM
  -- the three failure branches contradict hs
  all_goals try
    (simp only [Prod.mk.injEq] at hM
     rw [← hM.2] at hs
     simp [MoveResult.isSuccess] at hs)
  -- success branch
  rename_i piece hcell hnp hscrut move hfind
  rw [executeMove] at hM
  simp only [Prod.mk.injEq] at hM
  obtain ⟨h1, h2⟩ := hM
  subst h1
  subst h2
  -- name the intermediate game
  set g3 := advanceTurn (applyMoveCore g fromIndex toIndex piece move).1 now with hg3
  have hturn : g3.currentTurn = g.currentTurn.other := by
    rw [hg3, advanceTurn_currentTurn, applyMoveCore_currentTurn]
  have hcount : g3.turnCount = g.turnCount + 1 := by
    rw [hg3, advanceTurn_turnCount, applyMoveCore_turnCount]
  have hc3 : isInCheck g3 g3.currentTurn.other = true := by
    rw [hturn, Color.other_other]
    rw [isInCheck_checkGameStatus_fst] at hc
    exact hc
  have hstat := checkGameStatus_leftInCheck g3 hc3
  rw [hstat]
  refine ⟨?_, rfl, ?_, ?_, ?_⟩
  · simp [MoveResult.status?, hturn]
  · simp [hturn]
  · simp [hturn]
  · simp [hcount]

/-- Board for the C4 witness: white king b1, black rook a8, black king h8.
White's `Kb1-a1` is a generated king move, but a1 is attacked by the rook
along the empty a-file. -/
def gLic : Game := { Game.new 10 with
  board := ((emptyBoard.set 1 (some 'K')).set 56 (some 'r')).set 63 (some 'k'),
  turnCount := 5 }

/-- Witness for C4: after white plays Kb1-a1 the move has been executed,
white is in check, and white loses immediately with result
`left-in-check`. -/
theorem makeMove_left_in_check_loses_witness :
    (makeMove gLic 1 0 0).2.status? =
      some { gameOver := true, result := some .leftInCheck,
             winner := some Color.black, inCheck := false } ∧
    (makeMove gLic 1 0 0).1.gameOver = true ∧
    (makeMove gLic 1 0 0).1.winner = some Color.black ∧
    (makeMove gLic 1 0 0).1.currentTurn = Color.black ∧
    (makeMove gLic 1 0 0).1.turnCount = gLic.turnCount + 1 :=
  makeMove_left_in_check_loses gLic 1 0 0 (by decide) (by decide)

/-! ## C7: the search apply/undo pair restores the exact prior state -/

theorem cell_eq_getElem (b : List (Option Char)) (i : Nat) (h : i < b.length) :
    Board.cell b i = b[i] := by
  unfold Board.cell
  rw [List.getD_eq_getElem?_getD, List.getElem?_eq_getElem h]
  rfl

/-- Writing back the original contents of cells `f` and `t` restores the
original board, provided the modified board agrees with the original
everywhere else. -/
theorem set_set_restore (b B : List (Option Char)) (f t : Nat)
    (hf : f < b.length) (ht : t < b.length) (hB : B.length = b.length)
    (hagree : ∀ i, i < b.length → i ≠ f → i ≠ t → Board.cell B i = Board.cell b i) :
    (B.set f (Board.cell b f)).set t (Board.cell b t) = b := by
  apply List.ext_getElem
  · simp [hB]
  · intro i h1 h2
    by_cases hit : i = t
    · subst hit
      rw [List.getElem_set_self]
      rw [cell_eq_getElem b i h2]
    · rw [List.getElem_set_ne (fun hh => hit hh.symm)]
      by_cases hif : i = f
      · subst hif
        rw [List.getElem_set_self]
        rw [cell_eq_getElem b i h2]
      · rw [List.getElem_set_ne (fun hh => hif hh.symm)]
        have h3 : i < B.length := by omega
        have h4 := hagree i h2 hif hit
        unfold Board.cell at h4
        rw [List.getD_eq_getElem?_getD, List.getD_eq_getElem?_getD,
          List.getElem?_eq_getElem h2, List.getElem?_eq_getElem h3] at h4
        simpa using h4

/-- Claim C7. Exact inverse law for the search's reversible move primitive:
for any game and cell indices in range (as produced by `getAllMoves`),
applying `makeTemporaryMove` and then the undo closure it returned
restores the game exactly — every board cell (including reversal of a
promotion and restoration of a captured piece), `currentTurn`, and
`moveNumber`. -/
theorem makeTemporaryMove_undo_roundtrip (g : Game) (fromIdx toIdx : Nat)
    (hf : fromIdx < 64) (ht : toIdx < 64) (hb : g.board.length = 64) :
    undoTemporaryMove g fromIdx toIdx (makeTemporaryMove g fromIdx toIdx) = g := by
  have hf' : fromIdx < g.board.length := by omega
  have ht' : toIdx < g.board.length := by omega
  obtain ⟨b, ct, mn, tc, go, w, lm, mh, ep, tcl, wt, bt, ts, tr⟩ := g
  simp only [undoTemporaryMove, makeTemporaryMove, Game.mk.injEq, and_true, true_and]
  apply set_set_restore
  · exact hf'
  · exact ht'
  · split
    · simp
    · split
      · simp
      · simp
  · intro i hi hif hit
    split
    · rw [cell_set_ne _ _ _ _ hit, cell_set_ne _ _ _ _ hif, cell_set_ne _ _ _ _ hit]
    · split
      · rw [cell_set_ne _ _ _ _ hit, cell_set_ne _ _ _ _ hif, cell_set_ne _ _ _ _ hit]
      · rw [cell_set_ne _ _ _ _ hif, cell_set_ne _ _ _ _ hit]

/-- Witness for C7: applying and undoing the capture d4xe5 on the concrete
`gCap3` board restores the exact game. -/
theorem makeTemporaryMove_undo_roundtrip_witness :
    undoTemporaryMove gCap3 27 36 (makeTemporaryMove gCap3 27 36) = gCap3 :=
  makeTemporaryMove_undo_roundtrip gCap3 27 36 (by decide) (by decide) (by decide)

/-! ## C1: makeMove is not rejected on a finished game -/

/-- A finished game (white already lost by timeout, say) in which white's
king still has legal destinations: white king a1, black king h8. -/
def gTerminal : Game := { Game.new 10 with
  board := (emptyBoard.set 0 (some 'K')).set 63 (some 'k'),
  turnCount := 6,
  gameOver := true,
  winner := some .black }

/-- Claim C1, failing. `makeMove` never consults `gameOver`: on the
finished game `gTerminal` the move Ka1-b1 is *accepted* — it returns
`success: true` and mutates the Game (board changed, `turnCount`
advanced, turn flipped) instead of being rejected like invalid input. -/
theorem makeMove_accepts_move_after_gameOver :
    gTerminal.gameOver = true ∧
    (makeMove gTerminal 0 1 0).2.isSuccess = true ∧
    (makeMove gTerminal 0 1 0).1.board ≠ gTerminal.board ∧
    (makeMove gTerminal 0 1 0).1.turnCount = gTerminal.turnCount + 1 ∧
    (makeMove gTerminal 0 1 0).1.currentTurn = Color.black := by
  refine ⟨rfl, by decide, by decide, by decide, by decide⟩

/-! ## C2: static evaluation vs the spec's material + positional sum -/

/-- Modelled from the spec's words (claim C2, spec §4.2 "Static
evaluation"): the per-piece material value keyed by the piece's type and
color as the board actually stores them — pawn 100, knight 320, bishop
330, rook 500, queen 900, king 20000, negated for black. -/
def specPieceValue : Char → Int
  | 'P' => 100 | 'p' => -100
  | 'N' => 320 | 'n' => -320
  | 'B' => 330 | 'b' => -330
  | 'R' => 500 | 'r' => -500
  | 'Q' => 900 | 'q' => -900
  | 'K' => 20000 | 'k' => -20000
  | _ => 0

/-- Modelled from the spec's words (claim C2): the piece-square bonus for
a piece on a cell, table selected by piece type, indexed with the table
flipped for black so both colors evaluate from their own side (identical
flip convention to `getPieceSquareValue`, but keyed by the board's
letters). -/
def specPieceSquare (piece : Char) (index : Nat) : Int :=
  let table? : Option (List Int) :=
    match piece.toLower with
    | 'p' => some PAWN_TABLE
    | 'n' => some KNIGHT_TABLE
    | 'b' => some BISHOP_TABLE
    | 'r' => some ROOK_TABLE
    | 'q' => some QUEEN_TABLE
    | 'k' => some KING_TABLE
    | _ => none
  match table? with
  | none => 0
  | some table =>
    let row := index / 8
    let col := index % 8
    if isWhitePiece piece then table.getD ((7 - row) * 8 + col) 0
    else -(table.getD (row * 8 + col) 0)

/-- Modelled from the spec's words (claim C2): material sum plus
piece-square bonuses plus 5 × (white legal-move count − black legal-move
count) plus the in-check adjustment (+50 if black is in check, −50 if
white is in check). -/
def specEvaluatePosition (g : Game) : Int :=
  ((List.range 64).map fun i =>
    match g.board.cell i with
    | none => 0
    | some piece => specPieceValue piece + specPieceSquare piece i).sum +
  ((mobilityFor g .white : Int) - (mobilityFor g .black : Int)) * 5 +
  ((if isInCheck g .black then (50 : Int) else 0) +
   (if isInCheck g .white then (-50 : Int) else 0))

/-- A non-terminal position: white king a1, white pawn d4, black king h8,
white to move on turn 10. -/
def gEval : Game := { Game.new 10 with
  board := ((emptyBoard.set 0 (some 'K')).set 27 (some 'P')).set 63 (some 'k'),
  turnCount := 10 }

/-- Claim C2, failing. On the non-terminal position `gEval` at medium
difficulty the engine's `evaluatePosition` returns only the mobility term
(5) — the material and piece-square terms contribute 0 for every piece,
because `PIECE_VALUES` and the square tables are keyed by Unicode chess
glyphs while the board stores ASCII letters — whereas the evaluation the
spec describes sums to 125: material 100, piece-square 20 (white king 20,
white pawn 20, black king −20), mobility 5, check adjustment 0 — as
computed by `specEvaluatePosition`. -/
theorem evaluatePosition_ne_spec_sum :
    gEval.gameOver = false ∧
    evaluatePosition .medium 0 gEval = 5 ∧
    specEvaluatePosition gEval = 125 ∧
    evaluatePosition .medium 0 gEval ≠ specEvaluatePosition gEval := by
  refine ⟨rfl, by decide, by decide, by decide⟩

/-! ## C6: the medium-difficulty "miss the best move" branch -/

theorem sortCapturesFirst_length (moves : List AIMove) :
    (sortCapturesFirst moves).length = moves.length := by
  unfold sortCapturesFirst
  rw [List.length_append, ← List.countP_eq_length_filter, ← List.countP_eq_length_filter]
  simpa using (List.length_eq_countP_add_countP (fun m => m.isCapture) moves).symm

/-- Claim C6, amended. Whenever the probability-0.15 branch of
`findBestMove` is taken at medium difficulty and more than one legal move
exists, the returned move is a uniformly random pick among the first
`min(3, n)` entries of the captures-first ordering of the legal move list
(`moves.slice(0, min(3, moves.length))`) — per-move minimax scores are
not consulted for this pick. -/
theorem findBestMove_medium_pick_is_ordered_slice (g : Game) (r : RandDraws)
    (hb : r.medBranch = true)
    (hn : 1 < (getAllMoves g g.currentTurn).length) :
    findBestMove .medium r g =
      (let sorted := sortCapturesFirst (getAllMoves g g.currentTurn)
       let topMoves := sorted.take (min 3 sorted.length)
       some (topMoves.getD (r.medIdx % topMoves.length) default)) := by
  have hne : (getAllMoves g g.currentTurn).isEmpty = false := by
    cases hL : getAllMoves g g.currentTurn
    · rw [hL] at hn
      simp at hn
    · simp
  have hlen := sortCapturesFirst_length (getAllMoves g g.currentTurn)
  simp only [findBestMove]
  rw [if_neg (show ¬((getAllMoves g g.currentTurn).isEmpty = true) from by simp [hne])]
  rw [if_neg (show ¬(Difficulty.medium = Difficulty.easy ∧ r.easyBranch = true) from by simp)]
  rw [if_pos (show True ∧ r.medBranch = true ∧
      1 < (sortCapturesFirst (getAllMoves g g.currentTurn)).length from
    ⟨trivial, hb, by rw [hlen]; exact hn⟩)]

/-- Witness game for the amended C6: `gEval` (white king a1, white pawn
d4, black king h8) has 4 legal white moves. -/
theorem findBestMove_medium_pick_is_ordered_slice_witness :
    findBestMove .medium ⟨false, 0, true, 1⟩ gEval =
      (let sorted := sortCapturesFirst (getAllMoves gEval gEval.currentTurn)
       let topMoves := sorted.take (min 3 sorted.length)
       some (topMoves.getD (1 % topMoves.length) default)) :=
  findBestMove_medium_pick_is_ordered_slice gEval ⟨false, 0, true, 1⟩ rfl (by decide)

/-- The C6 counterexample position: white king h1, white knight c7, black
king a8, white to move with captures allowed.  The knight's only capture
(taking on a8) is the uniquely worst-scoring root move, while every quiet
move scores at least 30. -/
def gMed : Game := { Game.new 10 with
  board := ((emptyBoard.set 7 (some 'K')).set 50 (some 'N')).set 56 (some 'k'),
  turnCount := 10 }

set_option maxRecDepth 1000000

set_option maxHeartbeats 8000000

/-- Claim C6, counterexample. At `gMed`, with the 0.15 branch taken
(`medBranch = true`, index draw 0) and 9 legal moves available,
`findBestMove` returns the capture 50→56 — but that move's root minimax
score (0) is strictly worse for the mover (white, maximizing) than the
scores of three other legal moves (55, 45, 40), so the returned move is
*not* among the 3 legal moves with the best minimax scores; the pick came
from the captures-first ordering, not from retained per-move scores. -/
theorem findBestMove_medium_pick_not_among_top_scored :
    gMed.currentTurn = Color.white ∧
    (getAllMoves gMed .white).length = 9 ∧
    findBestMove .medium ⟨false, 0, true, 0⟩ gMed =
      some { fromIdx := 50, toIdx := 56, isCapture := true } ∧
    ([({ fromIdx := 50, toIdx := 56, isCapture := true } : AIMove),
      { fromIdx := 50, toIdx := 44, isCapture := false },
      { fromIdx := 50, toIdx := 33, isCapture := false },
      { fromIdx := 7, toIdx := 14, isCapture := false }]).Nodup ∧
    { fromIdx := 50, toIdx := 44, isCapture := false } ∈ getAllMoves gMed .white ∧
    { fromIdx := 50, toIdx := 33, isCapture := false } ∈ getAllMoves gMed .white ∧
    { fromIdx := 7, toIdx := 14, isCapture := false } ∈ getAllMoves gMed .white ∧
    rootScore .medium gMed true { fromIdx := 50, toIdx := 56, isCapture := true } = 0 ∧
    rootScore .medium gMed true { fromIdx := 50, toIdx := 44, isCapture := false } = 55 ∧
    rootScore .medium gMed true { fromIdx := 50, toIdx := 33, isCapture := false } = 45 ∧
    rootScore .medium gMed true { fromIdx := 7, toIdx := 14, isCapture := false } = 40 := by
  refine ⟨rfl, by decide, by decide, by decide, by decide, by decide, by decide,
    by decide, by decide, by decide, by decide⟩

/-! ## C8: invariants of the random starting position -/

/-- Number of occupied cells of a board. -/
def occupiedCount (b : Board) : Nat := List.countP (fun o => o.isSome) b

/-- Number of cells holding the piece letter `p`. -/
def pieceCount (b : Board) (p : Char) : Nat := List.countP (fun o => o == some p) b

/-- Executable checker for claim C8's starting-position invariants:
64 cells, exactly 32 occupied (since each of the 32 placements occupies a
distinct cell, this is the no-collision property), per-color piece counts
1 king, 8 pawns and the multiset {Q,R,R,B,B,N,N}, the white king on rank
1, the black king on rank 8, white pawns within ranks 2-4 and black pawns
within ranks 4-7. -/
def validStartingBoard (b : Board) : Bool :=
  b.length == 64 &&
  occupiedCount b == 32 &&
  pieceCount b 'K' == 1 && pieceCount b 'Q' == 1 && pieceCount b 'R' == 2 &&
  pieceCount b 'B' == 2 && pieceCount b 'N' == 2 && pieceCount b 'P' == 8 &&
  pieceCount b 'k' == 1 && pieceCount b 'q' == 1 && pieceCount b 'r' == 2 &&
  pieceCount b 'b' == 2 && pieceCount b 'n' == 2 && pieceCount b 'p' == 8 &&
  ((List.range 64).all fun i =>
    (Board.cell b i != some 'K' || decide (i ≤ 7)) &&
    (Board.cell b i != some 'k' || decide (56 ≤ i)) &&
    (Board.cell b i != some 'P' || decide (8 ≤ i ∧ i ≤ 31)) &&
    (Board.cell b i != some 'p' || decide (24 ≤ i ∧ i ≤ 55)))

/-- Where can a piece on the updated board come from: it was already
there, or it is the newly written piece on the written cell. -/
theorem cell_set_cases (b : Board) (pos x : Nat) (y q : Option Char)
    (h : Board.cell (b.set pos y) x = q) :
    Board.cell b x = q ∨ (q = y ∧ x = pos) := by
  by_cases hx : x = pos
  · subst hx
    by_cases hlen : x < b.length
    · rw [cell_set_self b x y hlen] at h
      exact Or.inr ⟨h.symm, rfl⟩
    · rw [List.set_eq_of_length_le (by omega)] at h
      exact Or.inl h
  · rw [cell_set_ne b pos x y hx] at h
    exact Or.inl h

theorem occupiedCount_set_some (b : Board) (i : Nat) (c : Char)
    (hi : i < b.length) (hcell : Board.cell b i = none) :
    occupiedCount (b.set i (some c)) = occupiedCount b + 1 := by
  unfold occupiedCount
  rw [countP_set_of_cell_none b i (some c) _ hi hcell rfl]
  rfl

theorem pieceCount_set_some (b : Board) (i : Nat) (c q : Char)
    (hi : i < b.length) (hcell : Board.cell b i = none) :
    pieceCount (b.set i (some c)) q = pieceCount b q + (if q = c then 1 else 0) := by
  unfold pieceCount
  rw [countP_set_of_cell_none b i (some c) _ hi hcell rfl]
  by_cases h : q = c
  · subst h
    simp
  · simp only [beq_iff_eq]
    rw [if_neg (fun hh : some c = some q => h (Option.some.inj hh).symm), if_neg h]

theorem pickRandom_fst_mem (arr : List Nat) (r : Nat) (h : arr ≠ []) :
    (pickRandom arr r).1 ∈ arr := by
  have hlen : arr.length ≠ 0 := by simpa using h
  have hmod : r % arr.length < arr.length := Nat.mod_lt r (Nat.pos_of_ne_zero hlen)
  show (if arr.length = 0 then ((64 : Nat), ([] : List Nat))
    else (arr.getD (r % arr.length) 64, arr.eraseIdx (r % arr.length))).1 ∈ arr
  rw [if_neg hlen]
  rw [List.getD_eq_getElem?_getD, List.getElem?_eq_getElem hmod]
  exact List.getElem_mem hmod

theorem pickRandom_snd_eq (arr : List Nat) (r : Nat) (h : arr ≠ []) :
    (pickRandom arr r).2 = arr.eraseIdx (r % arr.length) := by
  unfold pickRandom
  rw [if_neg (by simpa using h)]

theorem pickRandom_snd_sublist (arr : List Nat) (r : Nat) :
    List.Sublist (pickRandom arr r).2 arr := by
  unfold pickRandom
  split
  · simp
  · exact List.eraseIdx_sublist arr (r % arr.length)

theorem pickRandom_snd_nodup (arr : List Nat) (r : Nat) (h : arr.Nodup) :
    (pickRandom arr r).2.Nodup :=
  (pickRandom_snd_sublist arr r).nodup h

theorem pickRandom_snd_length (arr : List Nat) (r : Nat) (h : arr ≠ []) :
    (pickRandom arr r).2.length = arr.length - 1 := by
  rw [pickRandom_snd_eq arr r h]
  exact List.length_eraseIdx_of_lt (Nat.mod_lt r (by simpa [Nat.pos_iff_ne_zero] using h))

theorem pickRandom_fst_not_mem_snd (arr : List Nat) (r : Nat)
    (hnd : arr.Nodup) (h : arr ≠ []) :
    (pickRandom arr r).1 ∉ (pickRandom arr r).2 := by
  intro hmem
  rw [pickRandom_snd_eq arr r h] at hmem
  have hlen : arr.length ≠ 0 := by simpa using h
  have hmod : r % arr.length < arr.length := Nat.mod_lt r (Nat.pos_of_ne_zero hlen)
  have hfst : (pickRandom arr r).1 = arr.get ⟨r % arr.length, hmod⟩ := by
    show (if arr.length = 0 then ((64 : Nat), ([] : List Nat))
      else (arr.getD (r % arr.length) 64, arr.eraseIdx (r % arr.length))).1 =
        arr.get ⟨r % arr.length, hmod⟩
    rw [if_neg hlen]
    simp only [List.getD_eq_getElem?_getD, List.getElem?_eq_getElem hmod]
    rfl
  rw [hfst] at hmem
  rw [List.mem_eraseIdx_iff_getElem] at hmem
  obtain ⟨i, hi, hne, hgi⟩ := hmem
  have : i = r % arr.length := by
    have := List.Nodup.getElem_inj_iff hnd |>.mp (by simpa using hgi)
    omega
  exact hne this

/-- Invariants of the piece placement loop: the board keeps length 64,
cells outside the zone are untouched, piece counts grow by exactly the
placed multiset, the occupied-cell count grows by the number of placed
pieces, and any piece on the output board was either already there or is
one of the placed pieces sitting on a zone cell. -/
theorem placePiecesLoop_spec (rand : Nat → Nat) :
    ∀ (ps : List Char) (b : Board) (zone : List Nat) (k : Nat),
    b.length = 64 →
    zone.Nodup →
    (∀ i ∈ zone, i < 64 ∧ Board.cell b i = none) →
    ps.length ≤ zone.length →
    (placePiecesLoop rand ps b zone k).1.length = 64 ∧
    (∀ x, x ∉ zone →
      Board.cell (placePiecesLoop rand ps b zone k).1 x = Board.cell b x) ∧
    (∀ q, pieceCount (placePiecesLoop rand ps b zone k).1 q = pieceCount b q + ps.count q) ∧
    occupiedCount (placePiecesLoop rand ps b zone k).1 = occupiedCount b + ps.length ∧
    (∀ x q, Board.cell (placePiecesLoop rand ps b zone k).1 x = some q →
      Board.cell b x = some q ∨ (q ∈ ps ∧ x ∈ zone)) := by
  intro ps
  induction ps with
  | nil =>
    intro b zone k hlen hnd hz hn
    refine ⟨hlen, fun x _ => rfl, fun q => by simp [placePiecesLoop], by simp [placePiecesLoop], ?_⟩
    intro x q h
    exact Or.inl h
  | cons p ps ih =>
    intro b zone k hlen hnd hz hn
    have hzne : zone ≠ [] := by
      intro hz0
      rw [hz0] at hn
      simp at hn
    have hposmem : (pickRandom zone (rand k)).1 ∈ zone := pickRandom_fst_mem zone (rand k) hzne
    obtain ⟨hposlt, hposcell⟩ := hz _ hposmem
    have hposlen : (pickRandom zone (rand k)).1 < b.length := by omega
    have hnotmem := pickRandom_fst_not_mem_snd zone (rand k) hnd hzne
    have hsub := (pickRandom_snd_sublist zone (rand k)).subset
    have hlen' : (List.set b (pickRandom zone (rand k)).1 (some p)).length = 64 := by
      rw [List.length_set]; exact hlen
    have hnd' := pickRandom_snd_nodup zone (rand k) hnd
    have hz' : ∀ i ∈ (pickRandom zone (rand k)).2,
        i < 64 ∧ Board.cell (List.set b (pickRandom zone (rand k)).1 (some p)) i = none := by
      intro i hi
      have hiz := hsub hi
      have hine : i ≠ (pickRandom zone (rand k)).1 := by
        intro he
        rw [he] at hi
        exact hnotmem hi
      exact ⟨(hz i hiz).1, by rw [cell_set_ne _ _ _ _ hine]; exact (hz i hiz).2⟩
    have hn' : ps.length ≤ (pickRandom zone (rand k)).2.length := by
      rw [pickRandom_snd_length zone (rand k) hzne]
      simp only [List.length_cons] at hn
      omega
    have hstep : placePiecesLoop rand (p :: ps) b zone k =
        placePiecesLoop rand ps (List.set b (pickRandom zone (rand k)).1 (some p))
          (pickRandom zone (rand k)).2 (k + 1) := rfl
    obtain ⟨ih1, ih2, ih3, ih4, ih5⟩ :=
      ih (List.set b (pickRandom zone (rand k)).1 (some p)) (pickRandom zone (rand k)).2
        (k + 1) hlen' hnd' hz' hn'
    rw [hstep]
    refine ⟨ih1, ?_, ?_, ?_, ?_⟩
    · intro x hx
      have hxz : x ∉ (pickRandom zone (rand k)).2 := fun hmem => hx (hsub hmem)
      have hxne : x ≠ (pickRandom zone (rand k)).1 := by
        intro he
        rw [he] at hx
        exact hx hposmem
      rw [ih2 x hxz, cell_set_ne _ _ _ _ hxne]
    · intro q
      rw [ih3 q, pieceCount_set_some b _ p q hposlen hposcell]
      have hcc : (p :: ps).count q = ps.count q + (if q = p then 1 else 0) := by
        by_cases hq : q = p
        · subst hq
          simp [List.count_cons]
        · simp [List.count_cons, hq, fun hh : p = q => hq hh.symm]
      rw [hcc]
      omega
    · rw [ih4, occupiedCount_set_some b _ p hposlen hposcell]
      simp only [List.length_cons]
      omega
    · intro x q h
      rcases ih5 x q h with h1 | ⟨hq, hx⟩
      · rcases cell_set_cases b _ x (some p) (some q) h1 with h2 | ⟨heq, hxe⟩
        · exact Or.inl h2
        · refine Or.inr ⟨?_, ?_⟩
          · rw [Option.some.inj heq.symm]
            exact List.mem_cons_self q ps
          · rw [hxe]
            exact hposmem
      · exact Or.inr ⟨List.mem_cons_of_mem p hq, hsub hx⟩

/-- On a duplicate-free list, filtering out one value drops at most one
element. -/
theorem length_le_length_filter_ne_add_one (l : List Nat) (a : Nat) (h : l.Nodup) :
    l.length ≤ (l.filter fun j => j ≠ a).length + 1 := by
  induction l with
  | nil => simp
  | cons x t ih =>
    rw [List.nodup_cons] at h
    rw [List.filter_cons]
    by_cases hx : x = a
    · subst hx
      have hft : t.filter (fun j => j ≠ x) = t := by
        rw [List.filter_eq_self]
        intro b hb
        simp only [ne_eq, decide_eq_true_eq]
        intro hbx
        rw [hbx] at hb
        exact h.1 hb
      rw [if_neg (by simp)]
      rw [hft]
      simp
    · rw [if_pos (by simp [hx])]
      have ht := ih h.2
      simp only [List.length_cons]
      omega

/-- Invariants of the pawn placement loop, which also removes each placed
cell from the piece zone: board length, outside-zone frame, counts,
occupancy, provenance, and preservation of the piece zone's properties
(duplicate-free, cells in range and still empty, length dropped by at
most the number of placed pawns). -/
theorem placePawnsLoop_spec (rand : Nat → Nat) (pawn : Char) :
    ∀ (n : Nat) (b : Board) (pawnZone pieceZone : List Nat) (k : Nat),
    b.length = 64 →
    pawnZone.Nodup →
    (∀ i ∈ pawnZone, i < 64 ∧ Board.cell b i = none) →
    n ≤ pawnZone.length →
    pieceZone.Nodup →
    (∀ j ∈ pieceZone, j < 64 ∧ Board.cell b j = none) →
    (placePawnsLoop rand pawn n b pawnZone pieceZone k).1.length = 64 ∧
    (∀ x, x ∉ pawnZone →
      Board.cell (placePawnsLoop rand pawn n b pawnZone pieceZone k).1 x = Board.cell b x) ∧
    (∀ q, pieceCount (placePawnsLoop rand pawn n b pawnZone pieceZone k).1 q =
      pieceCount b q + (if q = pawn then n else 0)) ∧
    occupiedCount (placePawnsLoop rand pawn n b pawnZone pieceZone k).1 =
      occupiedCount b + n ∧
    (∀ x q, Board.cell (placePawnsLoop rand pawn n b pawnZone pieceZone k).1 x = some q →
      Board.cell b x = some q ∨ (q = pawn ∧ x ∈ pawnZone)) ∧
    (placePawnsLoop rand pawn n b pawnZone pieceZone k).2.2.1.Nodup ∧
    (∀ j ∈ (placePawnsLoop rand pawn n b pawnZone pieceZone k).2.2.1,
      j < 64 ∧ Board.cell (placePawnsLoop rand pawn n b pawnZone pieceZone k).1 j = none) ∧
    (∀ j ∈ (placePawnsLoop rand pawn n b pawnZone pieceZone k).2.2.1, j ∈ pieceZone) ∧
    pieceZone.length ≤ (placePawnsLoop rand pawn n b pawnZone pieceZone k).2.2.1.length + n := by
  intro n
  induction n with
  | zero =>
    intro b pawnZone pieceZone k hlen hnd hz hn hpnd hpz
    exact ⟨hlen, fun x _ => rfl, fun q => by simp [placePawnsLoop],
      by simp [placePawnsLoop], fun x q h => Or.inl h, hpnd, hpz, fun j hj => hj,
      by simp [placePawnsLoop]⟩
  | succ n ih =>
    intro b pawnZone pieceZone k hlen hnd hz hn hpnd hpz
    have hzne : pawnZone ≠ [] := by
      intro hz0
      rw [hz0] at hn
      simp at hn
    have hposmem : (pickRandom pawnZone (rand k)).1 ∈ pawnZone :=
      pickRandom_fst_mem pawnZone (rand k) hzne
    obtain ⟨hposlt, hposcell⟩ := hz _ hposmem
    have hposlen : (pickRandom pawnZone (rand k)).1 < b.length := by omega
    have hnotmem := pickRandom_fst_not_mem_snd pawnZone (rand k) hnd hzne
    have hsub := (pickRandom_snd_sublist pawnZone (rand k)).subset
    have hlen' : (List.set b (pickRandom pawnZone (rand k)).1 (some pawn)).length = 64 := by
      rw [List.length_set]; exact hlen
    have hnd' := pickRandom_snd_nodup pawnZone (rand k) hnd
    have hz' : ∀ i ∈ (pickRandom pawnZone (rand k)).2,
        i < 64 ∧ Board.cell (List.set b (pickRandom pawnZone (rand k)).1 (some pawn)) i = none := by
      intro i hi
      have hiz := hsub hi
      have hine : i ≠ (pickRandom pawnZone (rand k)).1 := by
        intro he
        rw [he] at hi
        exact hnotmem hi
      exact ⟨(hz i hiz).1, by rw [cell_set_ne _ _ _ _ hine]; exact (hz i hiz).2⟩
    have hn' : n ≤ (pickRandom pawnZone (rand k)).2.length := by
      rw [pickRandom_snd_length pawnZone (rand k) hzne]
      omega
    have hpnd' : (pieceZone.filter fun idx =>
        idx ≠ (pickRandom pawnZone (rand k)).1).Nodup := hpnd.filter _
    have hpz' : ∀ j ∈ pieceZone.filter (fun idx => idx ≠ (pickRandom pawnZone (rand k)).1),
        j < 64 ∧ Board.cell (List.set b (pickRandom pawnZone (rand k)).1 (some pawn)) j = none := by
      intro j hj
      rw [List.mem_filter] at hj
      have hjp := hpz j hj.1
      have hjne : j ≠ (pickRandom pawnZone (rand k)).1 := by simpa using hj.2
      exact ⟨hjp.1, by rw [cell_set_ne _ _ _ _ hjne]; exact hjp.2⟩
    have hstep : placePawnsLoop rand pawn (n + 1) b pawnZone pieceZone k =
        placePawnsLoop rand pawn n (List.set b (pickRandom pawnZone (rand k)).1 (some pawn))
          (pickRandom pawnZone (rand k)).2
          (pieceZone.filter fun idx => idx ≠ (pickRandom pawnZone (rand k)).1) (k + 1) := rfl
    obtain ⟨ih1, ih2, ih3, ih4, ih5, ih6, ih7, ih9, ih8⟩ :=
      ih (List.set b (pickRandom pawnZone (rand k)).1 (some pawn))
        (pickRandom pawnZone (rand k)).2
        (pieceZone.filter fun idx => idx ≠ (pickRandom pawnZone (rand k)).1)
        (k + 1) hlen' hnd' hz' hn' hpnd' hpz'
    rw [hstep]
    refine ⟨ih1, ?_, ?_, ?_, ?_, ih6, ih7, ?_, ?_⟩
    · intro x hx
      have hxz : x ∉ (pickRandom pawnZone (rand k)).2 := fun hmem => hx (hsub hmem)
      have hxne : x ≠ (pickRandom pawnZone (rand k)).1 := by
        intro he
        rw [he] at hx
        exact hx hposmem
      rw [ih2 x hxz, cell_set_ne _ _ _ _ hxne]
    · intro q
      rw [ih3 q, pieceCount_set_some b _ pawn q hposlen hposcell]
      by_cases hq : q = pawn
      · simp [hq]
        omega
      · simp [hq]
    · rw [ih4, occupiedCount_set_some b _ pawn hposlen hposcell]
      omega
    · intro x q h
      rcases ih5 x q h with h1 | ⟨hq, hx⟩
      · rcases cell_set_cases b _ x (some pawn) (some q) h1 with h2 | ⟨heq, hxe⟩
        · exact Or.inl h2
        · exact Or.inr ⟨Option.some.inj heq, by rw [hxe]; exact hposmem⟩
      · exact Or.inr ⟨hq, hsub hx⟩
    · intro j hj
      have := ih9 j hj
      rw [List.mem_filter] at this
      exact this.1
    · have hf := length_le_length_filter_ne_add_one pieceZone
        (pickRandom pawnZone (rand k)).1 hpnd
      have := ih8
      omega

/-- A filter and its complement partition a list's length. -/
theorem length_filter_add_length_filter_not (l : List Nat) (p : Nat → Bool) :
    (l.filter p).length + (l.filter fun a => !p a).length = l.length := by
  rw [← List.countP_eq_length_filter, ← List.countP_eq_length_filter]
  simpa using (List.length_eq_countP_add_countP p l).symm

/-- A duplicate-free list of naturals inside `[lo, hi]` has at most
`hi + 1 - lo` elements. -/
theorem length_le_of_nodup_mem_Icc (l : List Nat) (lo hi : Nat) (h : l.Nodup)
    (hm : ∀ x ∈ l, lo ≤ x ∧ x ≤ hi) : l.length ≤ hi + 1 - lo := by
  have h1 : l.toFinset.card = l.length := List.toFinset_card_of_nodup h
  have h2 : l.toFinset ⊆ Finset.Icc lo hi := by
    intro x hx
    rw [List.mem_toFinset] at hx
    rw [Finset.mem_Icc]
    exact hm x hx
  have h3 := Finset.card_le_card h2
  rw [Nat.card_Icc] at h3
  omega

set_option maxHeartbeats 3000000 in
/-- Claim C8. For every sequence of random draws, `generateStartingPosition`
produces a board satisfying all the claimed invariants: 64 cells with
exactly 32 occupied (so no two placements collide), per color 1 king,
8 pawns and exactly the piece multiset {Q,R,R,B,B,N,N}, the white king on
rank 1, the black king on rank 8, white pawns within cells 8-31 and black
pawns within cells 24-55. -/
theorem generateStartingPosition_valid (rand : Nat → Nat) :
    validStartingBoard (generateStartingPosition rand) = true := by
  unfold generateStartingPosition
  lift_lets
  extract_lets b0 wkZone wpawnZone wpcZone0 bkZone bpawnZone0 bpcZone0 pickedWK b1 wpcZone1
    afterWP b2 wpcZone2 k2 whitePieces wpcZone3 afterWPieces b3 k3 pickedBK b4 bpcZone1
    bpawnZone1 afterBP b5 bpcZone2 k5 blackPieces bpcZone3 afterBPieces
  -- definitional equations for the extracted stages
  have hb0 : b0 = List.replicate 64 none := rfl
  have hwkZ : wkZone = List.range 8 := rfl
  have hwpawnZ : wpawnZone = (List.range 24).map (· + 8) := rfl
  have hwpc0 : wpcZone0 = List.range 24 := rfl
  have hbkZ : bkZone = (List.range 8).map (· + 56) := rfl
  have hbpawn0 : bpawnZone0 = (List.range 32).map (· + 24) := rfl
  have hbpc0 : bpcZone0 = (List.range 24).map (· + 40) := rfl
  have hpickedWK : pickedWK = pickRandom wkZone (rand 0) := rfl
  have hb1 : b1 = List.set b0 pickedWK.1 (some 'K') := rfl
  have hwpc1 : wpcZone1 = wpcZone0.filter (fun i => i ≠ pickedWK.1) := rfl
  have hafterWP : afterWP = placePawnsLoop rand 'P' 8 b1 wpawnZone wpcZone1 1 := rfl
  have hb2 : b2 = afterWP.1 := rfl
  have hwpc2 : wpcZone2 = afterWP.2.2.1 := rfl
  have hwhitePieces : whitePieces = ['Q', 'R', 'R', 'B', 'B', 'N', 'N'] := rfl
  have hwpc3 : wpcZone3 = wpcZone2.filter (fun idx => Board.cell b2 idx == none) := rfl
  have hafterWPieces : afterWPieces = placePiecesLoop rand whitePieces b2 wpcZone3 k2 := rfl
  have hb3 : b3 = afterWPieces.1 := rfl
  have hpickedBK : pickedBK = pickRandom bkZone (rand k3) := rfl
  have hb4 : b4 = List.set b3 pickedBK.1 (some 'k') := rfl
  have hbpc1 : bpcZone1 = bpcZone0.filter (fun i => i ≠ pickedBK.1) := rfl
  have hbpawn1 : bpawnZone1 = bpawnZone0.filter (fun idx => Board.cell b4 idx == none) := rfl
  have hafterBP : afterBP = placePawnsLoop rand 'p' 8 b4 bpawnZone1 bpcZone1 (k3 + 1) := rfl
  have hb5 : b5 = afterBP.1 := rfl
  have hbpc2 : bpcZone2 = afterBP.2.2.1 := rfl
  have hblackPieces : blackPieces = ['q', 'r', 'r', 'b', 'b', 'n', 'n'] := rfl
  have hbpc3 : bpcZone3 = bpcZone2.filter (fun idx => Board.cell b5 idx == none) := rfl
  have hafterBPieces : afterBPieces = placePiecesLoop rand blackPieces b5 bpcZone3 k5 := rfl
  clear_value b0 wkZone wpawnZone wpcZone0 bkZone bpawnZone0 bpcZone0 pickedWK b1 wpcZone1
    afterWP b2 wpcZone2 k2 whitePieces wpcZone3 afterWPieces b3 k3 pickedBK b4 bpcZone1
    bpawnZone1 afterBP b5 bpcZone2 k5 blackPieces bpcZone3 afterBPieces
  -- phase 0: the empty board
  have hb0cell : ∀ i, Board.cell b0 i = none := fun i => by rw [hb0]; exact cell_replicate i
  have hb0len : b0.length = 64 := by rw [hb0]; rfl
  have hb0occ : occupiedCount b0 = 0 := by rw [hb0]; decide
  have hb0count : ∀ q, pieceCount b0 q = 0 := by
    intro q
    rw [hb0]
    unfold pieceCount
    induction (64 : Nat) with
    | zero => simp
    | succ n ih => rw [List.replicate_succ, List.countP_cons]; simp [ih]
  -- phase 1: white king
  have hwkne : wkZone ≠ [] := by rw [hwkZ]; decide
  have hwkmem : pickedWK.1 ∈ wkZone := by
    rw [hpickedWK]; exact pickRandom_fst_mem wkZone (rand 0) hwkne
  have hwklt : pickedWK.1 < 8 := by
    have h := hwkmem
    rw [hwkZ, List.mem_range] at h
    exact h
  have hb1len : b1.length = 64 := by rw [hb1, List.length_set]; exact hb0len
  have hb1occ : occupiedCount b1 = 1 := by
    rw [hb1, occupiedCount_set_some b0 _ 'K' (by omega) (hb0cell _), hb0occ]
  have hb1count : ∀ q, pieceCount b1 q = (if q = 'K' then 1 else 0) := by
    intro q
    rw [hb1, pieceCount_set_some b0 pickedWK.1 'K' q (by omega) (hb0cell _), hb0count,
      Nat.zero_add]
  have hb1prov : ∀ x q, Board.cell b1 x = some q → x = pickedWK.1 ∧ q = 'K' := by
    intro x q h
    rw [hb1] at h
    rcases cell_set_cases b0 _ x (some 'K') (some q) h with h2 | ⟨heq, hxe⟩
    · rw [hb0cell x] at h2; cases h2
    · exact ⟨hxe, Option.some.inj heq⟩
  -- phase 2: white pawns
  have hwpawnnd : wpawnZone.Nodup := by rw [hwpawnZ]; decide
  have hwpawnbound : ∀ i ∈ wpawnZone, 8 ≤ i ∧ i < 32 := by rw [hwpawnZ]; decide
  have hwpawnempty : ∀ i ∈ wpawnZone, i < 64 ∧ Board.cell b1 i = none := by
    intro i hi
    have hbd := hwpawnbound i hi
    refine ⟨by omega, ?_⟩
    rw [hb1, cell_set_ne _ _ _ _ (by omega)]
    exact hb0cell i
  have hwpawnlen : 8 ≤ wpawnZone.length := by rw [hwpawnZ]; decide
  have hwpc0nd : wpcZone0.Nodup := by rw [hwpc0]; decide
  have hwpc1nd : wpcZone1.Nodup := by rw [hwpc1]; exact hwpc0nd.filter _
  have hwpc1mem : ∀ j ∈ wpcZone1, j < 24 ∧ j ≠ pickedWK.1 := by
    intro j hj
    rw [hwpc1, List.mem_filter] at hj
    have h24 : j < 24 := by
      have := hj.1
      rw [hwpc0, List.mem_range] at this
      exact this
    exact ⟨h24, by simpa using hj.2⟩
  have hwpc1empty : ∀ j ∈ wpcZone1, j < 64 ∧ Board.cell b1 j = none := by
    intro j hj
    obtain ⟨h24, hne⟩ := hwpc1mem j hj
    refine ⟨by omega, ?_⟩
    rw [hb1, cell_set_ne _ _ _ _ hne]
    exact hb0cell j
  have hwpc1len : 23 ≤ wpcZone1.length := by
    have h := length_le_length_filter_ne_add_one wpcZone0 pickedWK.1 hwpc0nd
    rw [← hwpc1] at h
    have h24 : wpcZone0.length = 24 := by rw [hwpc0]; decide
    omega
  obtain ⟨hWP1, hWP2, hWP3, hWP4, hWP5, hWP6, hWP7, hWP9, hWP8⟩ :=
    placePawnsLoop_spec rand 'P' 8 b1 wpawnZone wpcZone1 1 hb1len hwpawnnd hwpawnempty
      hwpawnlen hwpc1nd hwpc1empty
  rw [← hafterWP] at hWP1 hWP2 hWP3 hWP4 hWP5 hWP6 hWP7 hWP9 hWP8
  rw [← hb2] at hWP1 hWP2 hWP3 hWP4 hWP5 hWP7
  rw [← hwpc2] at hWP6 hWP7 hWP9 hWP8
  -- phase 3: white pieces
  have hwpc3eq : wpcZone3 = wpcZone2 := by
    rw [hwpc3, List.filter_eq_self]
    intro j hj
    rw [(hWP7 j hj).2]
    rfl
  have hwpc3len : whitePieces.length ≤ wpcZone3.length := by
    rw [hwpc3eq, hwhitePieces]
    simp only [List.length_cons, List.length_nil]
    omega
  obtain ⟨hW1, hW2, hW3, hW4, hW5⟩ :=
    placePiecesLoop_spec rand whitePieces b2 wpcZone3 k2 hWP1 (hwpc3eq ▸ hWP6)
      (hwpc3eq ▸ hWP7) hwpc3len
  rw [← hafterWPieces, ← hb3] at hW1 hW2 hW3 hW4 hW5
  have hwpc3sub : ∀ j ∈ wpcZone3, j < 24 := by
    intro j hj
    rw [hwpc3eq] at hj
    exact (hwpc1mem j (hWP9 j hj)).1
  -- provenance of the board after all white placements
  have hb3prov : ∀ x q, Board.cell b3 x = some q →
      (x = pickedWK.1 ∧ q = 'K') ∨ (q = 'P' ∧ x ∈ wpawnZone) ∨
      (q ∈ whitePieces ∧ x ∈ wpcZone3) := by
    intro x q h
    rcases hW5 x q h with h1 | h1
    · rcases hWP5 x q h1 with h2 | h2
      · exact Or.inl (hb1prov x q h2)
      · exact Or.inr (Or.inl h2)
    · exact Or.inr (Or.inr h1)
  have hb3high : ∀ j, 32 ≤ j → Board.cell b3 j = none := by
    intro j hj
    rcases hcj : Board.cell b3 j with _ | q
    · rfl
    · exfalso
      rcases hb3prov j q hcj with ⟨hx, _⟩ | ⟨_, hx⟩ | ⟨_, hx⟩
      · omega
      · have := hwpawnbound j hx; omega
      · have := hwpc3sub j hx; omega
  -- phase 4: black king
  have hbkne : bkZone ≠ [] := by rw [hbkZ]; decide
  have hbkmem : pickedBK.1 ∈ bkZone := by
    rw [hpickedBK]; exact pickRandom_fst_mem bkZone (rand k3) hbkne
  have hbkbound : 56 ≤ pickedBK.1 ∧ pickedBK.1 < 64 := by
    have h := hbkmem
    rw [hbkZ] at h
    simp only [List.mem_map, List.mem_range] at h
    obtain ⟨a, ha, he⟩ := h
    omega
  have hb4len : b4.length = 64 := by rw [hb4, List.length_set]; exact hW1
  have hb3cellbk : Board.cell b3 pickedBK.1 = none := hb3high _ (by omega)
  have hb4occ : occupiedCount b4 = 17 := by
    rw [hb4, occupiedCount_set_some b3 _ 'k' (by omega) hb3cellbk, hW4, hWP4, hb1occ]
    rw [hwhitePieces]
    decide
  have hb4count : ∀ q, pieceCount b4 q = pieceCount b3 q + (if q = 'k' then 1 else 0) := by
    intro q
    rw [hb4, pieceCount_set_some b3 pickedBK.1 'k' q (by omega) hb3cellbk]
  have hb4prov : ∀ x q, Board.cell b4 x = some q →
      (x = pickedBK.1 ∧ q = 'k') ∨ (x = pickedWK.1 ∧ q = 'K') ∨ (q = 'P' ∧ x ∈ wpawnZone) ∨
      (q ∈ whitePieces ∧ x ∈ wpcZone3) := by
    intro x q h
    rw [hb4] at h
    rcases cell_set_cases b3 _ x (some 'k') (some q) h with h2 | ⟨heq, hxe⟩
    · rcases hb3prov x q h2 with h3 | h3 | h3
      · exact Or.inr (Or.inl h3)
      · exact Or.inr (Or.inr (Or.inl h3))
      · exact Or.inr (Or.inr (Or.inr h3))
    · exact Or.inl ⟨hxe, Option.some.inj heq⟩
  -- phase 5: black pawns
  have hbpc0nd : bpcZone0.Nodup := by rw [hbpc0]; decide
  have hbpc1nd : bpcZone1.Nodup := by rw [hbpc1]; exact hbpc0nd.filter _
  have hbpc1mem : ∀ j ∈ bpcZone1, (40 ≤ j ∧ j < 64) ∧ j ≠ pickedBK.1 := by
    intro j hj
    rw [hbpc1, List.mem_filter] at hj
    have hb : 40 ≤ j ∧ j < 64 := by
      have := hj.1
      rw [hbpc0] at this
      simp only [List.mem_map, List.mem_range] at this
      obtain ⟨a, ha, he⟩ := this
      omega
    exact ⟨hb, by simpa using hj.2⟩
  have hbpc1empty : ∀ j ∈ bpcZone1, j < 64 ∧ Board.cell b4 j = none := by
    intro j hj
    obtain ⟨⟨h40, h64⟩, hne⟩ := hbpc1mem j hj
    refine ⟨h64, ?_⟩
    rw [hb4, cell_set_ne _ _ _ _ hne]
    exact hb3high j (by omega)
  have hbpc1len : 23 ≤ bpcZone1.length := by
    have h := length_le_length_filter_ne_add_one bpcZone0 pickedBK.1 hbpc0nd
    rw [← hbpc1] at h
    have h24 : bpcZone0.length = 24 := by rw [hbpc0]; decide
    omega
  have hbpawn0nd : bpawnZone0.Nodup := by rw [hbpawn0]; decide
  have hbpawn0bound : ∀ i ∈ bpawnZone0, 24 ≤ i ∧ i < 56 := by rw [hbpawn0]; decide
  have hbpawn1nd : bpawnZone1.Nodup := by rw [hbpawn1]; exact hbpawn0nd.filter _
  have hbpawn1mem : ∀ i ∈ bpawnZone1, i ∈ bpawnZone0 ∧ Board.cell b4 i = none := by
    intro i hi
    rw [hbpawn1, List.mem_filter] at hi
    exact ⟨hi.1, by simpa using hi.2⟩
  have hbpawn1empty : ∀ i ∈ bpawnZone1, i < 64 ∧ Board.cell b4 i = none := by
    intro i hi
    obtain ⟨h0, hcell⟩ := hbpawn1mem i hi
    exact ⟨by have := hbpawn0bound i h0; omega, hcell⟩
  have hbpawn1len : 8 ≤ bpawnZone1.length := by
    have hpart := length_filter_add_length_filter_not bpawnZone0
      (fun idx => Board.cell b4 idx == none)
    have hbadnd : (bpawnZone0.filter fun idx => !(Board.cell b4 idx == none)).Nodup :=
      hbpawn0nd.filter _
    have hbadmem : ∀ j ∈ bpawnZone0.filter (fun idx => !(Board.cell b4 idx == none)),
        24 ≤ j ∧ j ≤ 31 := by
      intro j hj
      rw [List.mem_filter] at hj
      obtain ⟨hj0, hjbad⟩ := hj
      have hjb := hbpawn0bound j hj0
      rcases hcj : Board.cell b4 j with _ | q
      · rw [hcj] at hjbad; simp at hjbad
      · rcases hb4prov j q hcj with ⟨hx, _⟩ | ⟨hx, _⟩ | ⟨_, hx⟩ | ⟨_, hx⟩
        · omega
        · omega
        · have := hwpawnbound j hx; omega
        · have := hwpc3sub j hx; omega
    have hbadlen := length_le_of_nodup_mem_Icc _ 24 31 hbadnd hbadmem
    have h32 : bpawnZone0.length = 32 := by rw [hbpawn0]; decide
    rw [← hbpawn1] at hpart
    omega
  obtain ⟨hBP1, hBP2, hBP3, hBP4, hBP5, hBP6, hBP7, hBP9, hBP8⟩ :=
    placePawnsLoop_spec rand 'p' 8 b4 bpawnZone1 bpcZone1 (k3 + 1) hb4len hbpawn1nd
      hbpawn1empty hbpawn1len hbpc1nd hbpc1empty
  rw [← hafterBP] at hBP1 hBP2 hBP3 hBP4 hBP5 hBP6 hBP7 hBP9 hBP8
  rw [← hb5] at hBP1 hBP2 hBP3 hBP4 hBP5 hBP7
  rw [← hbpc2] at hBP6 hBP7 hBP9 hBP8
  -- phase 6: black pieces
  have hbpc3eq : bpcZone3 = bpcZone2 := by
    rw [hbpc3, List.filter_eq_self]
    intro j hj
    rw [(hBP7 j hj).2]
    rfl
  have hbpc3len : blackPieces.length ≤ bpcZone3.length := by
    rw [hbpc3eq, hblackPieces]
    simp only [List.length_cons, List.length_nil]
    omega
  obtain ⟨hB1, hB2, hB3, hB4, hB5⟩ :=
    placePiecesLoop_spec rand blackPieces b5 bpcZone3 k5 hBP1 (hbpc3eq ▸ hBP6)
      (hbpc3eq ▸ hBP7) hbpc3len
  rw [← hafterBPieces] at hB1 hB2 hB3 hB4 hB5
  -- final board facts
  have hfinocc : occupiedCount afterBPieces.1 = 32 := by
    rw [hB4, hBP4, hb4occ, hblackPieces]
    decide
  have hfinlen : afterBPieces.1.length = 64 := hB1
  have hfincount : ∀ q, pieceCount afterBPieces.1 q =
      (if q = 'K' then 1 else 0) + (if q = 'P' then 8 else 0) +
      List.count q ['Q', 'R', 'R', 'B', 'B', 'N', 'N'] +
      (if q = 'k' then 1 else 0) + (if q = 'p' then 8 else 0) +
      List.count q ['q', 'r', 'r', 'b', 'b', 'n', 'n'] := by
    intro q
    rw [hB3 q, hBP3 q, hb4count q, hW3 q, hWP3 q, hb1count q, hwhitePieces, hblackPieces]
  have hfinprov : ∀ x q, Board.cell afterBPieces.1 x = some q →
      (q ∈ blackPieces) ∨ (q = 'p' ∧ 24 ≤ x ∧ x < 56) ∨ (x = pickedBK.1 ∧ q = 'k') ∨
      (x = pickedWK.1 ∧ q = 'K') ∨ (q = 'P' ∧ 8 ≤ x ∧ x < 32) ∨ (q ∈ whitePieces) := by
    intro x q h
    rcases hB5 x q h with h1 | ⟨hq, _⟩
    · rcases hBP5 x q h1 with h2 | ⟨hq, hx⟩
      · rcases hb4prov x q h2 with h3 | h3 | ⟨hq, hx⟩ | ⟨hq, _⟩
        · exact Or.inr (Or.inr (Or.inl h3))
        · exact Or.inr (Or.inr (Or.inr (Or.inl h3)))
        · exact Or.inr (Or.inr (Or.inr (Or.inr (Or.inl ⟨hq, hwpawnbound x hx⟩))))
        · exact Or.inr (Or.inr (Or.inr (Or.inr (Or.inr hq))))
      · have := hbpawn0bound x (hbpawn1mem x hx).1
        exact Or.inr (Or.inl ⟨hq, this⟩)
    · exact Or.inl hq
  -- assemble the checker
  unfold validStartingBoard
  simp only [Bool.and_eq_true, beq_iff_eq, List.all_eq_true]
  refine ⟨⟨⟨⟨⟨⟨⟨⟨⟨⟨⟨⟨⟨⟨hfinlen, hfinocc⟩, ?_⟩, ?_⟩, ?_⟩, ?_⟩, ?_⟩, ?_⟩, ?_⟩, ?_⟩, ?_⟩,
    ?_⟩, ?_⟩, ?_⟩, ?_⟩
  · rw [hfincount 'K']; decide
  · rw [hfincount 'Q']; decide
  · rw [hfincount 'R']; decide
  · rw [hfincount 'B']; decide
  · rw [hfincount 'N']; decide
  · rw [hfincount 'P']; decide
  · rw [hfincount 'k']; decide
  · rw [hfincount 'q']; decide
  · rw [hfincount 'r']; decide
  · rw [hfincount 'b']; decide
  · rw [hfincount 'n']; decide
  · rw [hfincount 'p']; decide
  · intro i hi
    simp only [Bool.and_eq_true, Bool.or_eq_true, bne_iff_ne, ne_eq, decide_eq_true_eq]
    have hKw : pickedWK.1 < 8 := hwklt
    refine ⟨⟨⟨?_, ?_⟩, ?_⟩, ?_⟩
    · by_cases hc : Board.cell afterBPieces.1 i = some 'K'
      · right
        rcases hfinprov i 'K' hc with h | ⟨h, _⟩ | ⟨_, h⟩ | ⟨hx, _⟩ | ⟨h, _⟩ | h
        · rw [hblackPieces] at h; simp at h
        · cases h
        · cases h
        · omega
        · cases h
        · rw [hwhitePieces] at h; simp at h
      · left; exact hc
    · by_cases hc : Board.cell afterBPieces.1 i = some 'k'
      · right
        rcases hfinprov i 'k' hc with h | ⟨h, _⟩ | ⟨hx, _⟩ | ⟨_, h⟩ | ⟨h, _⟩ | h
        · rw [hblackPieces] at h; simp at h
        · cases h
        · omega
        · cases h
        · cases h
        · rw [hwhitePieces] at h; simp at h
      · left; exact hc
    · by_cases hc : Board.cell afterBPieces.1 i = some 'P'
      · right
        rcases hfinprov i 'P' hc with h | ⟨h, _⟩ | ⟨_, h⟩ | ⟨_, h⟩ | ⟨_, hx⟩ | h
        · rw [hblackPieces] at h; simp at h
        · cases h
        · cases h
        · cases h
        · omega
        · rw [hwhitePieces] at h; simp at h
      · left; exact hc
    · by_cases hc : Board.cell afterBPieces.1 i = some 'p'
      · right
        rcases hfinprov i 'p' hc with h | ⟨_, hx⟩ | ⟨_, h⟩ | ⟨_, h⟩ | ⟨h, _⟩ | h
        · rw [hblackPieces] at h; simp at h
        · omega
        · cases h
        · cases h
        · cases h
        · rw [hwhitePieces] at h; simp at h
      · left; exact hc

end KRC
